import Mathlib

set_option maxHeartbeats 1000000

/-!
Shallow embedding of the debounced job queue and delivery pipeline of the
whatsapp-setting-ai-btg repository.

Embedded source files:
* `src/lib/job-queue.ts` (part_012): `scheduleOrDebounceJob`, `processReadyJobs`,
  `processJob` (namespace `JobQueue` below);
* `src/lib/whatsapp.ts` (part_011): `sendWhatsAppMessage`;
* `src/lib/chatbase.ts`: `getOrCreateMapping`, `updateMapping`;
* `src/backend/index.js`: the standalone worker's `processJob`, `getMapping`,
  `updateMapping` (namespace `Worker` below).

Modelling conventions:
* Timestamps are epoch milliseconds as `Nat` (`Date.now()`; ISO strings in the
  database compare exactly like the underlying instants).
* The Supabase client surfaces persistence failures as error values in the
  result object, never as thrown exceptions; the embedding mirrors this with
  explicit outcome flags (`PFlags`) and error-as-value results.  The promise
  rejection channel of a function is modelled by an explicit `thrown` field
  where the source can throw.
* `getConfig` returns `data?.value || null`; a `none` in `Config` therefore
  stands for an absent or empty config value.  `debounce_ms` is kept as the
  parsed number (`parseInt(... || '3000')`) for numeric or absent values.
* External HTTP calls (Chatbase, WhatsApp Graph, Brevo) are oracles: their
  outcome is an explicit environment argument, and the embedding counts the
  AI-adapter and outbound-adapter invocations.
-/

/-- Job status enum of the `scheduled_jobs` table:
pending / processing / completed / failed / skipped. -/
inductive JobStatus where
  | pending
  | processing
  | completed
  | failed
  | skipped
deriving DecidableEq

/-- A row of the `scheduled_jobs` table (fields used by the core). -/
structure Job where
  id : Nat
  wa_id : String
  status : JobStatus
  scheduled_for : Nat
  content : Option String
  attempts : Nat
  last_error : Option String
  updated_at : Nat
deriving DecidableEq

/-- A row of the `wa_id_mappings` table (`blocked` defaults to `false` on
insert, per the table default used by the webhook handler and
`getOrCreateMapping`). -/
structure Mapping where
  wa_id : String
  blocked : Bool
  name : Option String
  chatbase_conversation_id : Option String
  chatbase_contact_id : Option String
deriving DecidableEq

/-- A row of the `event_logs` table (payload elided; the claims only inspect
event type, subject and error). -/
structure EventLog where
  event_type : String
  wa_id : Option String
  job_id : Option Nat
  error : Option String
deriving DecidableEq

/-- The persistent state: the two tables owned or read by the core plus the
event log.  `nextId` models the id sequence backing `scheduled_jobs.id`. -/
structure DB where
  jobs : List Job
  mappings : List Mapping
  events : List EventLog
  nextId : Nat
deriving DecidableEq

/-- Config values read through `getConfig` (`data?.value || null`; `none`
covers both an absent key and an empty value). -/
structure Config where
  debounce_ms : Option Nat
  send_mode : Option String
  template_name : Option String
  template_language : Option String
  whatsapp_phone_number_id : Option String
  whatsapp_access_token : Option String
deriving DecidableEq

/-- `supabase.from('scheduled_jobs').update({...}).eq('id', i)`:
update every row whose id matches. -/
def updateJobRow (jobs : List Job) (i : Nat) (f : Job → Job) : List Job :=
  jobs.map fun j => if j.id = i then f j else j

/-- `supabase.from('event_logs').insert({...})` (insert errors are ignored by
every caller). -/
def logEvent (db : DB) (ty : String) (w : Option String) (jid : Option Nat)
    (err : Option String) : DB :=
  { db with events := db.events ++ [⟨ty, w, jid, err⟩] }

/-- Outcome of the single `fetch` to the WhatsApp Graph API inside
`sendWhatsAppMessage` (src/lib/whatsapp.ts). -/
inductive NetOutcome where
  | ok (messageId : Option String)
  | httpError (body : String)
  | netError (msg : String)
deriving DecidableEq

/-- The options of `sendWhatsAppMessage` that shape the request body
(template components elided: the body never influences the returned result). -/
structure SendMessageOptions where
  dest : String
  message : String
  useTemplate : Bool
deriving DecidableEq

/-- Return shape of `sendWhatsAppMessage`: `{ success, messageId?, error? }`. -/
structure SendResult where
  success : Bool
  messageId : Option String
  error : Option String
deriving DecidableEq

/-- `sendWhatsAppMessage` of src/lib/whatsapp.ts (part_011).  Missing
credentials return an error value before any network call; a non-OK response
returns the stringified error body; a thrown network error is caught and
returned.  The function has no uncaught throw site. -/
def sendWhatsAppMessage (cfg : Config) (_opts : SendMessageOptions)
    (net : NetOutcome) : SendResult :=
  match cfg.whatsapp_phone_number_id, cfg.whatsapp_access_token with
  | some _, some _ =>
    match net with
    | .ok mid => { success := true, messageId := mid, error := none }
    | .httpError body => { success := false, messageId := none, error := some body }
    | .netError m => { success := false, messageId := none, error := some m }
  | _, _ =>
    { success := false, messageId := none,
      error := some "WhatsApp credentials not configured" }

/-- `getOrCreateMapping` of src/lib/chatbase.ts: `.maybeSingle()` yields the
row only when exactly one matches (zero rows and the multiple-row error both
leave `data` null, in which case a fresh `{ wa_id }` row is inserted and null
ids are returned). -/
def getOrCreateMapping (db : DB) (waId : String) :
    (Option String × Option String) × DB :=
  match db.mappings.filter (fun m => decide (m.wa_id = waId)) with
  | [m] => ((m.chatbase_conversation_id, m.chatbase_contact_id), db)
  | _ =>
    (⟨none, none⟩,
      { db with mappings := db.mappings ++
          [{ wa_id := waId, blocked := false, name := none,
             chatbase_conversation_id := none, chatbase_contact_id := none }] })

/-- `updateMapping(waId, { chatbase_conversation_id })`: upsert keyed on
`wa_id` with merge semantics. -/
def upsertMappingConv (db : DB) (waId cid : String) : DB :=
  if db.mappings.any (fun m => decide (m.wa_id = waId)) then
    { db with mappings := db.mappings.map fun m =>
        if m.wa_id = waId then { m with chatbase_conversation_id := some cid } else m }
  else
    { db with mappings := db.mappings ++
        [{ wa_id := waId, blocked := false, name := none,
           chatbase_conversation_id := some cid, chatbase_contact_id := none }] }

/-- `updateMapping(waId, { chatbase_contact_id })`: upsert keyed on `wa_id`. -/
def upsertMappingContact (db : DB) (waId cid : String) : DB :=
  if db.mappings.any (fun m => decide (m.wa_id = waId)) then
    { db with mappings := db.mappings.map fun m =>
        if m.wa_id = waId then { m with chatbase_contact_id := some cid } else m }
  else
    { db with mappings := db.mappings ++
        [{ wa_id := waId, blocked := false, name := none,
           chatbase_conversation_id := none, chatbase_contact_id := some cid }] }

/-- The reply of the AI adapter (`queryChatbaseWithConversation` /
`queryChatbase`): `{ text, conversationId }`. -/
structure ChatbaseResp where
  text : String
  conversationId : String
deriving DecidableEq

namespace JobQueue

/-- `const MAX_ATTEMPTS = 3` (src/lib/job-queue.ts and src/backend/index.js). -/
def MAX_ATTEMPTS : Nat := 3

/-- `parseInt(await getConfig('debounce_ms') || '3000')`. -/
def debounceMs (cfg : Config) : Nat := cfg.debounce_ms.getD 3000

/-- Outcomes of the persistence calls inside `scheduleOrDebounceJob`
(supabase reports them as error values; the source ignores the update error,
and logs the insert error). -/
structure PFlags where
  queryFails : Bool
  updateFails : Bool
  insertFails : Bool
deriving DecidableEq

/-- The pending-job lookup of `scheduleOrDebounceJob`:
`.eq('wa_id', w).eq('status', 'pending').single()` — `.single()` yields a row
exactly when one row matches. -/
def findPendingJob (db : DB) (w : String) : Option Job :=
  match db.jobs.filter
      (fun j => decide (j.wa_id = w ∧ j.status = JobStatus.pending)) with
  | [j] => some j
  | _ => none

/-- Result of `scheduleOrDebounceJob`: the new state and the console lines
the call printed before returning. -/
structure EnqResult where
  db : DB
  console : List String
deriving DecidableEq

/-- `scheduleOrDebounceJob(waId, content)` of src/lib/job-queue.ts (part_012):
sliding debounce.  If a pending job exists its content is appended
(newline-joined, treating empty stored content as absent) and `scheduled_for`
is reset to `now + debounceMs`; otherwise a fresh pending job is inserted.
Persistence failures are values (`pf`), never exceptions: the insert failure
is logged and swallowed, the update result is not even inspected. -/
def scheduleOrDebounceJob (db : DB) (waId content : String) (now : Nat)
    (cfg : Config) (pf : PFlags) : EnqResult :=
  let existingJob := if pf.queryFails then none else findPendingJob db waId
  let scheduledFor := now + debounceMs cfg
  match existingJob with
  | some ej =>
    let existingContent := ej.content.getD ""
    let newContent :=
      if existingContent = "" then content else existingContent ++ "\n" ++ content
    let jobs1 :=
      if pf.updateFails then db.jobs
      else updateJobRow db.jobs ej.id fun j =>
        { j with scheduled_for := scheduledFor, content := some newContent,
                 updated_at := now }
    { db := { db with jobs := jobs1 }, console := ["[JobQueue] Debounced job"] }
  | none =>
    if pf.insertFails then
      { db := db, console := ["[JobQueue] Failed to create job"] }
    else
      let newJob : Job :=
        { id := db.nextId, wa_id := waId, status := JobStatus.pending,
          scheduled_for := scheduledFor, content := some content,
          attempts := 0, last_error := none, updated_at := now }
      { db := { db with jobs := db.jobs ++ [newJob], nextId := db.nextId + 1 },
        console := ["[JobQueue] Created job"] }

/-- External-call oracle for one `processJob` attempt of the lib path:
the AI query either throws (credentials missing, non-OK response, network
error) or returns a reply, and the WhatsApp fetch has a `NetOutcome`. -/
structure LibEnv where
  aiResult : Except String ChatbaseResp
  net : NetOutcome

/-- Result of the lib `processJob`: the new state, the number of AI-adapter
and outbound-adapter invocations, and the rethrown error (the lib variant
rethrows at the end of its catch block). -/
structure PR where
  db : DB
  aiCalls : Nat
  sendCalls : Nat
  thrown : Option String
deriving DecidableEq

/-- `sendResult.error || 'Failed to send message'` (`||` treats an empty
string as absent). -/
def errOrDefault (o : Option String) : String :=
  match o with
  | some e => if e = "" then "Failed to send message" else e
  | none => "Failed to send message"

/-- The catch block of the lib `processJob` (src/lib/job-queue.ts 194-235):
increment attempts; at `MAX_ATTEMPTS` mark failed and emit `job_failed`,
otherwise reschedule as pending after `2^attempts * 5` seconds; rethrow. -/
def handleFailure (db : DB) (job : Job) (now : Nat) (msg : String)
    (ac sc : Nat) : PR :=
  let attempts := job.attempts + 1
  if MAX_ATTEMPTS ≤ attempts then
    let db1 := { db with jobs := updateJobRow db.jobs job.id fun j =>
      { j with status := JobStatus.failed, attempts := attempts,
               last_error := some msg, updated_at := now } }
    let db2 := logEvent db1 "job_failed" (some job.wa_id) (some job.id) (some msg)
    { db := db2, aiCalls := ac, sendCalls := sc, thrown := some msg }
  else
    let retryDelay := 2 ^ attempts * 5
    let retryAt := now + retryDelay * 1000
    let db1 := { db with jobs := updateJobRow db.jobs job.id fun j =>
      { j with status := JobStatus.pending, scheduled_for := retryAt,
               attempts := attempts, last_error := some msg, updated_at := now } }
    { db := db1, aiCalls := ac, sendCalls := sc, thrown := some msg }

/-- `processJob` of src/lib/job-queue.ts (part_012, lines 110-236): mark the
row processing, validate content (`if (!content) throw`), resolve the
mapping, query the AI adapter, persist a changed conversation id, send the
reply through `sendWhatsAppMessage` and throw on a non-success result; the
catch block is `handleFailure`.  There is no blocked-user check on this
path. -/
def processJob (db : DB) (job : Job) (cfg : Config) (env : LibEnv)
    (now : Nat) : PR :=
  let db1 := { db with jobs := updateJobRow db.jobs job.id fun j =>
    { j with status := JobStatus.processing, updated_at := now } }
  if job.content.getD "" = "" then
    handleFailure db1 job now "No message content found in job" 0 0
  else
    let step := getOrCreateMapping db1 job.wa_id
    let mapping := step.1
    let db2 := step.2
    match env.aiResult with
    | .error e => handleFailure db2 job now e 1 0
    | .ok resp =>
      let db3 :=
        if resp.conversationId ≠ "" ∧ mapping.1 ≠ some resp.conversationId then
          upsertMappingConv db2 job.wa_id resp.conversationId
        else db2
      let sendMode := (cfg.send_mode.getD "text")
      let useTemplate := sendMode = "template" ∧ cfg.template_name.isSome
      let sendResult := sendWhatsAppMessage cfg
        ⟨job.wa_id, resp.text, decide useTemplate⟩ env.net
      if sendResult.success then
        let db4 := logEvent db3 "chatbase_response_sent" (some job.wa_id)
          (some job.id) none
        let db5 := { db4 with jobs := updateJobRow db4.jobs job.id fun j =>
          { j with status := JobStatus.completed, updated_at := now } }
        { db := db5, aiCalls := 1, sendCalls := 1, thrown := none }
      else
        handleFailure db3 job now (errOrDefault sendResult.error) 1 1

/-- Insertion of a job into a list kept sorted by `scheduled_for`
(ascending), used to model `order('scheduled_for', { ascending: true })`. -/
def insertByTime (j : Job) : List Job → List Job
  | [] => [j]
  | k :: ks =>
    if j.scheduled_for ≤ k.scheduled_for then j :: k :: ks
    else k :: insertByTime j ks

/-- Stable sort by `scheduled_for` ascending. -/
def sortByTime : List Job → List Job
  | [] => []
  | j :: js => insertByTime j (sortByTime js)

/-- The ready-job query of `processReadyJobs`: rows with `status = pending`
and `scheduled_for <= now`, ordered by `scheduled_for` ascending, limited
to 10. -/
def readyJobs (db : DB) (now : Nat) : List Job :=
  (sortByTime (db.jobs.filter fun j =>
    decide (j.status = JobStatus.pending ∧ j.scheduled_for ≤ now))).take 10

/-- The sequential per-job loop of `processReadyJobs`: each job is processed
with the state left by its predecessors; a thrown error is caught, counted,
and the loop continues with the next job.  Returns
`(state, processed, errors)`. -/
def runBatch (cfg : Config) (now : Nat) (envs : Nat → LibEnv) :
    DB → List Job → Nat → DB × Nat × Nat
  | db, [], _ => (db, 0, 0)
  | db, j :: js, i =>
    let r := processJob db j cfg (envs i) now
    let rest := runBatch cfg now envs r.db js (i + 1)
    match r.thrown with
    | none => (rest.1, rest.2.1 + 1, rest.2.2)
    | some _ => (rest.1, rest.2.1, rest.2.2 + 1)

/-- `{ processed, errors }` as returned to the caller of
`processReadyJobs`. -/
structure PollResult where
  processed : Nat
  errors : Nat
deriving DecidableEq

/-- `processReadyJobs()` of src/lib/job-queue.ts (part_012, lines 68-98).
A failed fetch returns `{ processed: 0, errors: 1 }`; otherwise the selected
jobs are processed one at a time in selection order, errors counted without
aborting the batch. -/
def processReadyJobs (db : DB) (cfg : Config) (now : Nat)
    (fetchFails : Bool) (envs : Nat → LibEnv) : DB × PollResult :=
  if fetchFails then (db, ⟨0, 1⟩)
  else
    let sel := readyJobs db now
    let r := runBatch cfg now envs db sel 0
    (r.1, ⟨r.2.1, r.2.2⟩)

end JobQueue

namespace Worker

/-- External-call oracle for one attempt of the worker `processJob`
(src/backend/index.js): contact search/creation (throws on missing Chatbase
credentials, returns null on caught errors), the Chatbase query and the
WhatsApp send (both throw on failure in this variant). -/
structure WEnv where
  contactResult : Except String (Option String)
  aiResult : Except String ChatbaseResp
  sendResult : Except String Unit

/-- Result of the worker `processJob`: new state plus adapter invocation
counts (this variant never rethrows: its catch block ends the function). -/
structure WR where
  db : DB
  aiCalls : Nat
  sendCalls : Nat
deriving DecidableEq

/-- `getMapping` of src/backend/index.js: `.eq('wa_id', w).single()`. -/
def getMapping (db : DB) (w : String) : Option Mapping :=
  match db.mappings.filter (fun m => decide (m.wa_id = w)) with
  | [m] => some m
  | _ => none

/-- The catch block of the worker `processJob` (src/backend/index.js
420-454): increment attempts; at `MAX_ATTEMPTS` mark failed and emit
`job_failed`; otherwise reschedule as pending after a fixed 5000 ms and emit
`job_retry`.  Never rethrows. -/
def handleFailure (db : DB) (job : Job) (now : Nat) (msg : String)
    (ac sc : Nat) : WR :=
  let attempts := job.attempts + 1
  if JobQueue.MAX_ATTEMPTS ≤ attempts then
    let db1 := { db with jobs := updateJobRow db.jobs job.id fun j =>
      { j with status := JobStatus.failed, attempts := attempts,
               last_error := some msg, updated_at := now } }
    let db2 := logEvent db1 "job_failed" (some job.wa_id) (some job.id) (some msg)
    { db := db2, aiCalls := ac, sendCalls := sc }
  else
    let db1 := { db with jobs := updateJobRow db.jobs job.id fun j =>
      { j with status := JobStatus.pending, scheduled_for := now + 5000,
               attempts := attempts, last_error := some msg, updated_at := now } }
    let db2 := logEvent db1 "job_retry" (some job.wa_id) (some job.id) (some msg)
    { db := db2, aiCalls := ac, sendCalls := sc }

/-- The tail of the worker's try block: the Chatbase query followed by the
WhatsApp send (both throw on failure in this variant) and the completion
update plus `job_completed` event. -/
def queryAndSend (db3 : DB) (job : Job) (env : WEnv) (now : Nat) : WR :=
  match env.aiResult with
  | Except.error e => handleFailure db3 job now e 1 0
  | Except.ok _ =>
    match env.sendResult with
    | Except.error e => handleFailure db3 job now e 1 1
    | Except.ok _ =>
      let db4 := { db3 with jobs := updateJobRow db3.jobs job.id fun j =>
        { j with status := JobStatus.completed, updated_at := now } }
      let db5 := logEvent db4 "job_completed" (some job.wa_id)
        (some job.id) none
      { db := db5, aiCalls := 1, sendCalls := 1 }

/-- `processJob` of src/backend/index.js (lines 328-455).  The blocked check
runs before anything else: a blocked mapping short-circuits to `skipped`
with `last_error = "User is blocked"`, a `job_skipped_blocked` event, and no
adapter call.  Otherwise: mark processing, validate content, resolve the
Chatbase contact and conversation id (persisting newly created ids), query
Chatbase, send via WhatsApp; any thrown step lands in `handleFailure` with a
fixed 5-second retry delay. -/
def processJob (db : DB) (job : Job) (env : WEnv) (now : Nat) : WR :=
  let mapping := getMapping db job.wa_id
  if (mapping.map (fun m => m.blocked)).getD false then
    let db1 := { db with jobs := updateJobRow db.jobs job.id fun j =>
      { j with status := JobStatus.skipped,
               last_error := some "User is blocked", updated_at := now } }
    let db2 := logEvent db1 "job_skipped_blocked" (some job.wa_id)
      (some job.id) none
    { db := db2, aiCalls := 0, sendCalls := 0 }
  else
    let db1 := { db with jobs := updateJobRow db.jobs job.id fun j =>
      { j with status := JobStatus.processing, updated_at := now } }
    if job.content.getD "" = "" then
      handleFailure db1 job now "No message content in job" 0 0
    else
      let contactStep : Except String (Option String × DB) :=
        match mapping.bind (fun m => m.chatbase_contact_id) with
        | some cid => Except.ok (some cid, db1)
        | none =>
          match env.contactResult with
          | .error e => Except.error e
          | .ok (some cid) =>
            Except.ok (some cid, upsertMappingContact db1 job.wa_id cid)
          | .ok none => Except.ok (none, db1)
      match contactStep with
      | .error e => handleFailure db1 job now e 0 0
      | .ok (_, db2) =>
        let db3 :=
          match mapping.bind (fun m => m.chatbase_conversation_id) with
          | some _ => db2
          | none =>
            upsertMappingConv db2 job.wa_id
              ("wa_" ++ job.wa_id ++ "_" ++ toString now)
        queryAndSend db3 job env now

end Worker

/-! ### Derived specifications -/

/-- Number of jobs of `w` with status Pending. -/
def pendingCount (db : DB) (w : String) : Nat :=
  db.jobs.countP fun j => decide (j.wa_id = w ∧ j.status = JobStatus.pending)

/-- The debounce invariant of the spec: at most one Pending job per user. -/
def atMostOnePending (db : DB) : Prop :=
  ∀ w, pendingCount db w ≤ 1

/-- Well-formedness of the job table: distinct row ids, all below the id
sequence value. -/
def JobsWF (db : DB) : Prop :=
  (db.jobs.map Job.id).Nodup ∧ ∀ j ∈ db.jobs, j.id < db.nextId

namespace JobQueue

/-- Whether one lib `processJob` attempt on a row with the given content
throws, as a function of the adapter oracle: empty content, a thrown AI
query, or a non-success send result.  (The success flag and error of
`sendWhatsAppMessage` do not depend on the request body.) -/
def attemptFails (cfg : Config) (content : Option String) (env : LibEnv) : Bool :=
  if content.getD "" = "" then true
  else
    match env.aiResult with
    | .error _ => true
    | .ok _ => !(sendWhatsAppMessage cfg ⟨"", "", false⟩ env.net).success

/-- The error message a failing lib `processJob` attempt records. -/
def failMsg (cfg : Config) (content : Option String) (env : LibEnv) : String :=
  if content.getD "" = "" then "No message content found in job"
  else
    match env.aiResult with
    | .error e => e
    | .ok _ => errOrDefault (sendWhatsAppMessage cfg ⟨"", "", false⟩ env.net).error

/-- The net effect of one lib `processJob` call on the rows with the
snapshot's id: completed on success, and on failure either the retry
transition (pending, exponential backoff) or the terminal failed update. -/
def finalUpdate (job : Job) (cfg : Config) (env : LibEnv) (now : Nat) :
    Job → Job :=
  if attemptFails cfg job.content env then
    if MAX_ATTEMPTS ≤ job.attempts + 1 then
      fun r => { r with status := JobStatus.failed, attempts := job.attempts + 1,
                        last_error := some (failMsg cfg job.content env),
                        updated_at := now }
    else
      fun r => { r with status := JobStatus.pending,
                        scheduled_for := now + 2 ^ (job.attempts + 1) * 5 * 1000,
                        attempts := job.attempts + 1,
                        last_error := some (failMsg cfg job.content env),
                        updated_at := now }
  else
    fun r => { r with status := JobStatus.completed, updated_at := now }

/-- A sequence of enqueue calls for one user (timestamp, text fragment),
with persistence succeeding and no poller run in between. -/
def enqueueSeq (db : DB) (w : String) (cfg : Config) :
    List (Nat × String) → DB
  | [] => db
  | (t, c) :: rest =>
    enqueueSeq (scheduleOrDebounceJob db w c t cfg ⟨false, false, false⟩).db w cfg rest

/-- The content-accumulation step of the debounce update:
`existingContent ? existingContent + '\n' + content : content`. -/
def accJoin (acc c : String) : String :=
  if acc = "" then c else acc ++ "\n" ++ c

/-- Number of jobs of the selection whose attempt throws (indexed oracle),
the independent characterisation of the poller's error counter. -/
def batchFailCount (cfg : Config) (envs : Nat → LibEnv) :
    List Job → Nat → Nat
  | [], _ => 0
  | j :: js, i =>
    (if attemptFails cfg j.content (envs i) then 1 else 0) +
      batchFailCount cfg envs js (i + 1)

end JobQueue

/-- Newline join, written from the spec's words: the fragments joined by
newline in call order. -/
def joinNewline : List String → String
  | [] => ""
  | [c] => c
  | c :: rest => c ++ "\n" ++ joinNewline rest

/-! ### Interleaving semantics

`FineStep` is the claim's transition system: each persisted database update
of the engine is one atomic step, and enqueue calls may interleave between
them (every `await` of the source is a suspension point).  `SerialStep` is
the coarser system in which each `processJob` call runs to completion
without an interleaved enqueue. -/

/-- One atomic persisted update, at the granularity of the individual
`await supabase...update` statements of the lib path: a full
`scheduleOrDebounceJob` call (one read-then-write), marking a pending row
processing, the retry transition of the catch block, the completed update,
and the terminal failed update. -/
inductive FineStep : DB → DB → Prop
  | enqueue (db : DB) (w c : String) (now : Nat) (cfg : Config) :
      FineStep db (JobQueue.scheduleOrDebounceJob db w c now cfg ⟨false, false, false⟩).db
  | markProcessing (db : DB) (j : Job) (now : Nat)
      (hj : j ∈ db.jobs) (hp : j.status = JobStatus.pending) :
      FineStep db { db with jobs := updateJobRow db.jobs j.id fun r =>
        { r with status := JobStatus.processing, updated_at := now } }
  | retryFailure (db : DB) (j : Job) (now : Nat) (msg : String)
      (hj : j ∈ db.jobs) (hp : j.status = JobStatus.processing)
      (hlt : j.attempts + 1 < JobQueue.MAX_ATTEMPTS) :
      FineStep db { db with jobs := updateJobRow db.jobs j.id fun r =>
        { r with status := JobStatus.pending,
                 scheduled_for := now + 2 ^ (j.attempts + 1) * 5 * 1000,
                 attempts := j.attempts + 1, last_error := some msg,
                 updated_at := now } }
  | completeJob (db : DB) (j : Job) (now : Nat)
      (hj : j ∈ db.jobs) (hp : j.status = JobStatus.processing) :
      FineStep db { db with jobs := updateJobRow db.jobs j.id fun r =>
        { r with status := JobStatus.completed, updated_at := now } }
  | failJob (db : DB) (j : Job) (now : Nat) (msg : String)
      (hj : j ∈ db.jobs) (hp : j.status = JobStatus.processing)
      (hge : JobQueue.MAX_ATTEMPTS ≤ j.attempts + 1) :
      FineStep db { db with jobs := updateJobRow db.jobs j.id fun r =>
        { r with status := JobStatus.failed, attempts := j.attempts + 1,
                 last_error := some msg, updated_at := now } }

/-- Reachability under fine-grained interleaving. -/
def FineReachable : DB → DB → Prop := Relation.ReflTransGen FineStep

/-- One serialized engine call: a full `scheduleOrDebounceJob` (any update
or insert outcome, lookup succeeding) or a full lib `processJob` on a
currently pending row, run to completion without interleaved enqueues. -/
inductive SerialStep : DB → DB → Prop
  | enqueue (db : DB) (w c : String) (now : Nat) (cfg : Config) (uf ins : Bool) :
      SerialStep db (JobQueue.scheduleOrDebounceJob db w c now cfg ⟨false, uf, ins⟩).db
  | process (db : DB) (j : Job) (cfg : Config) (env : JobQueue.LibEnv) (now : Nat)
      (hj : j ∈ db.jobs) (hp : j.status = JobStatus.pending) :
      SerialStep db (JobQueue.processJob db j cfg env now).db

/-- Reachability under serialized whole-call execution. -/
def SerialReachable : DB → DB → Prop := Relation.ReflTransGen SerialStep

/-! ### Basic lemmas about row updates -/

theorem updateJobRow_comp (l : List Job) (i : Nat) (f g : Job → Job)
    (hf : ∀ r, (f r).id = r.id) :
    updateJobRow (updateJobRow l i f) i g
      = updateJobRow l i (fun r => g (f r)) := by
  simp only [updateJobRow, List.map_map]
  refine List.map_congr_left fun r _ => ?_
  by_cases h : r.id = i
  · simp [Function.comp, h, hf r]
  · simp [Function.comp, h]

theorem countP_updateJobRow (l : List Job) (i : Nat) (f : Job → Job)
    (p : Job → Bool) (hf : ∀ r, p (f r) = p r) :
    (updateJobRow l i f).countP p = l.countP p := by
  simp only [updateJobRow]
  rw [List.countP_map]
  refine List.countP_congr fun r _ => ?_
  by_cases h : r.id = i <;> simp [Function.comp, h, hf r]

theorem map_id_updateJobRow (l : List Job) (i : Nat) (f : Job → Job)
    (hf : ∀ r, (f r).id = r.id) :
    (updateJobRow l i f).map Job.id = l.map Job.id := by
  simp only [updateJobRow, List.map_map]
  refine List.map_congr_left fun r _ => ?_
  by_cases h : r.id = i <;> simp [Function.comp, h, hf r]

theorem mem_updateJobRow (l : List Job) (i : Nat) (f : Job → Job) (r : Job)
    (hr : r ∈ updateJobRow l i f) :
    ∃ a ∈ l, r = if a.id = i then f a else a := by
  simp only [updateJobRow, List.mem_map] at hr
  obtain ⟨a, ha, rfl⟩ := hr
  exact ⟨a, ha, rfl⟩

theorem mem_updateJobRow_self (l : List Job) (i : Nat) (f : Job → Job)
    (a : Job) (ha : a ∈ l) (hai : a.id = i) : f a ∈ updateJobRow l i f := by
  simp only [updateJobRow, List.mem_map]
  exact ⟨a, ha, by simp [hai]⟩

/-! ### Components untouched by the mapping operations -/

theorem getOrCreateMapping_jobs (db : DB) (w : String) :
    (getOrCreateMapping db w).2.jobs = db.jobs := by
  unfold getOrCreateMapping
  cases db.mappings.filter (fun m => decide (m.wa_id = w)) with
  | nil => rfl
  | cons m ms => cases ms <;> rfl

theorem getOrCreateMapping_nextId (db : DB) (w : String) :
    (getOrCreateMapping db w).2.nextId = db.nextId := by
  unfold getOrCreateMapping
  cases db.mappings.filter (fun m => decide (m.wa_id = w)) with
  | nil => rfl
  | cons m ms => cases ms <;> rfl

theorem getOrCreateMapping_events (db : DB) (w : String) :
    (getOrCreateMapping db w).2.events = db.events := by
  unfold getOrCreateMapping
  cases db.mappings.filter (fun m => decide (m.wa_id = w)) with
  | nil => rfl
  | cons m ms => cases ms <;> rfl

theorem upsertMappingConv_jobs (db : DB) (w c : String) :
    (upsertMappingConv db w c).jobs = db.jobs := by
  unfold upsertMappingConv
  by_cases h : db.mappings.any (fun m => decide (m.wa_id = w)) <;> simp [h]

theorem upsertMappingConv_nextId (db : DB) (w c : String) :
    (upsertMappingConv db w c).nextId = db.nextId := by
  unfold upsertMappingConv
  by_cases h : db.mappings.any (fun m => decide (m.wa_id = w)) <;> simp [h]

theorem upsertMappingConv_events (db : DB) (w c : String) :
    (upsertMappingConv db w c).events = db.events := by
  unfold upsertMappingConv
  by_cases h : db.mappings.any (fun m => decide (m.wa_id = w)) <;> simp [h]

/-- The returned result of `sendWhatsAppMessage` does not depend on the
request body options. -/
theorem sendWhatsAppMessage_opts_indep (cfg : Config)
    (o1 o2 : SendMessageOptions) (net : NetOutcome) :
    sendWhatsAppMessage cfg o1 net = sendWhatsAppMessage cfg o2 net := by
  unfold sendWhatsAppMessage
  cases cfg.whatsapp_phone_number_id <;> cases cfg.whatsapp_access_token <;>
    cases net <;> rfl

/-! ### Shape of one lib `processJob` call -/

namespace JobQueue

theorem processJob_jobs (db : DB) (job : Job) (cfg : Config) (env : LibEnv)
    (now : Nat) :
    (processJob db job cfg env now).db.jobs
      = updateJobRow db.jobs job.id (finalUpdate job cfg env now) := by
  have hid : ∀ r : Job,
      (({ r with status := JobStatus.processing, updated_at := now } : Job)).id
        = r.id := fun r => rfl
  by_cases hc : job.content.getD "" = ""
  · unfold processJob finalUpdate attemptFails failMsg handleFailure
    simp only [hc, if_true]
    by_cases hm : MAX_ATTEMPTS ≤ job.attempts + 1 <;>
      simp [hm, logEvent, updateJobRow_comp _ _ _ _ hid]
  · cases hai : env.aiResult with
    | error e =>
      unfold processJob finalUpdate attemptFails failMsg handleFailure
      simp only [hc, if_false, hai]
      by_cases hm : MAX_ATTEMPTS ≤ job.attempts + 1 <;>
        simp [hm, logEvent, getOrCreateMapping_jobs,
          updateJobRow_comp _ _ _ _ hid]
    | ok resp =>
      unfold processJob finalUpdate attemptFails failMsg handleFailure
      simp only [hc, if_false, hai]
      rw [sendWhatsAppMessage_opts_indep cfg
        ⟨job.wa_id, resp.text, decide ((cfg.send_mode.getD "text") = "template"
          ∧ cfg.template_name.isSome)⟩ ⟨"", "", false⟩ env.net]
      by_cases hs : (sendWhatsAppMessage cfg ⟨"", "", false⟩ env.net).success
      · simp only [hs, if_true, Bool.not_true, Bool.false_eq_true]
        split <;>
          simp [logEvent, getOrCreateMapping_jobs, upsertMappingConv_jobs,
            updateJobRow_comp _ _ _ _ hid]
      · simp only [hs, Bool.false_eq_true, if_false, Bool.not_false]
        by_cases hm : MAX_ATTEMPTS ≤ job.attempts + 1 <;>
          [skip; skip] <;>
          (simp only [hm, if_true, if_false]
           split <;>
            simp [hm, logEvent, getOrCreateMapping_jobs, upsertMappingConv_jobs,
              updateJobRow_comp _ _ _ _ hid])

theorem mem_insertByTime (j x : Job) (l : List Job) :
    x ∈ insertByTime j l ↔ x = j ∨ x ∈ l := by
  induction l with
  | nil => simp [insertByTime]
  | cons k ks ih =>
    unfold insertByTime
    by_cases h : j.scheduled_for ≤ k.scheduled_for
    · simp [h]
    · simp [h, ih]
      tauto

theorem length_insertByTime (j : Job) (l : List Job) :
    (insertByTime j l).length = l.length + 1 := by
  induction l with
  | nil => simp [insertByTime]
  | cons k ks ih =>
    unfold insertByTime
    by_cases h : j.scheduled_for ≤ k.scheduled_for <;> simp [h, ih]

theorem pairwise_insertByTime (j : Job) (l : List Job)
    (hl : l.Pairwise fun a b => a.scheduled_for ≤ b.scheduled_for) :
    (insertByTime j l).Pairwise fun a b => a.scheduled_for ≤ b.scheduled_for := by
  induction l with
  | nil => simp [insertByTime]
  | cons k ks ih =>
    unfold insertByTime
    rcases List.pairwise_cons.mp hl with ⟨hk, hks⟩
    by_cases h : j.scheduled_for ≤ k.scheduled_for
    · simp only [h, if_true]
      refine List.pairwise_cons.mpr ⟨?_, hl⟩
      intro x hx
      rcases List.mem_cons.mp hx with rfl | hx
      · exact h
      · exact Nat.le_trans h (hk x hx)
    · simp only [h, if_false]
      refine List.pairwise_cons.mpr ⟨?_, ih hks⟩
      intro x hx
      rcases (mem_insertByTime j x ks).mp hx with rfl | hx
      · exact Nat.le_of_lt (Nat.lt_of_not_le h)
      · exact hk x hx

theorem mem_sortByTime (l : List Job) (x : Job) :
    x ∈ sortByTime l ↔ x ∈ l := by
  induction l with
  | nil => simp [sortByTime]
  | cons j js ih => simp [sortByTime, mem_insertByTime, ih]

theorem length_sortByTime (l : List Job) :
    (sortByTime l).length = l.length := by
  induction l with
  | nil => rfl
  | cons j js ih => simp [sortByTime, length_insertByTime, ih]

theorem pairwise_sortByTime (l : List Job) :
    (sortByTime l).Pairwise fun a b => a.scheduled_for ≤ b.scheduled_for := by
  induction l with
  | nil => simp [sortByTime]
  | cons j js ih => exact pairwise_insertByTime j (sortByTime js) ih

theorem readyJobs_length (db : DB) (now : Nat) :
    (readyJobs db now).length ≤ 10 := by
  unfold readyJobs
  simp [List.length_take]

theorem readyJobs_mem (db : DB) (now : Nat) (r : Job)
    (hr : r ∈ readyJobs db now) :
    r ∈ db.jobs ∧ r.status = JobStatus.pending ∧ r.scheduled_for ≤ now := by
  unfold readyJobs at hr
  have h1 := List.mem_of_mem_take hr
  have h2 := (mem_sortByTime _ r).mp h1
  have h3 := List.mem_filter.mp h2
  have h4 := of_decide_eq_true h3.2
  exact ⟨h3.1, h4.1, h4.2⟩

theorem readyJobs_sorted (db : DB) (now : Nat) :
    (readyJobs db now).Pairwise fun a b => a.scheduled_for ≤ b.scheduled_for := by
  unfold readyJobs
  exact (pairwise_sortByTime _).sublist (List.take_sublist _ _)

theorem processJob_thrown (db : DB) (job : Job) (cfg : Config) (env : LibEnv)
    (now : Nat) :
    (processJob db job cfg env now).thrown
      = if attemptFails cfg job.content env then
          some (failMsg cfg job.content env)
        else none := by
  by_cases hc : job.content.getD "" = ""
  · unfold processJob attemptFails failMsg handleFailure
    simp only [hc, if_true]
    by_cases hm : MAX_ATTEMPTS ≤ job.attempts + 1 <;> simp [hm]
  · cases hai : env.aiResult with
    | error e =>
      unfold processJob attemptFails failMsg handleFailure
      simp only [hc, if_false, hai]
      by_cases hm : MAX_ATTEMPTS ≤ job.attempts + 1 <;> simp [hm]
    | ok resp =>
      unfold processJob attemptFails failMsg handleFailure
      simp only [hc, if_false, hai]
      rw [sendWhatsAppMessage_opts_indep cfg
        ⟨job.wa_id, resp.text, decide ((cfg.send_mode.getD "text") = "template"
          ∧ cfg.template_name.isSome)⟩ ⟨"", "", false⟩ env.net]
      by_cases hs : (sendWhatsAppMessage cfg ⟨"", "", false⟩ env.net).success
      · simp only [hs, if_true, Bool.not_true, Bool.false_eq_true, if_false]
      · simp only [hs, Bool.false_eq_true, if_false, Bool.not_false, if_true]
        by_cases hm : MAX_ATTEMPTS ≤ job.attempts + 1 <;> simp [hm]

theorem runBatch_counts (cfg : Config) (now : Nat) (envs : Nat → LibEnv) :
    ∀ sel : List Job, ∀ db : DB, ∀ i : Nat,
      (runBatch cfg now envs db sel i).2.1 + (runBatch cfg now envs db sel i).2.2
          = sel.length
        ∧ (runBatch cfg now envs db sel i).2.2 = batchFailCount cfg envs sel i := by
  intro sel
  induction sel with
  | nil => intro db i; simp [runBatch, batchFailCount]
  | cons j js ih =>
    intro db i
    have hthrown := processJob_thrown db j cfg (envs i) now
    unfold runBatch batchFailCount
    by_cases hf : attemptFails cfg j.content (envs i) = true
    · simp only [hf, if_true] at hthrown
      rcases ih (processJob db j cfg (envs i) now).db (i + 1) with ⟨h1, h2⟩
      simp [hthrown, h1, h2, hf]
      omega
    · simp only [Bool.not_eq_true] at hf
      simp only [hf, Bool.false_eq_true, if_false] at hthrown
      rcases ih (processJob db j cfg (envs i) now).db (i + 1) with ⟨h1, h2⟩
      simp [hthrown, h1, h2, hf]
      omega

theorem processJob_nextId (db : DB) (job : Job) (cfg : Config) (env : LibEnv)
    (now : Nat) :
    (processJob db job cfg env now).db.nextId = db.nextId := by
  by_cases hc : job.content.getD "" = ""
  · unfold processJob handleFailure
    simp only [hc, if_true]
    by_cases hm : MAX_ATTEMPTS ≤ job.attempts + 1 <;> simp [hm, logEvent]
  · cases hai : env.aiResult with
    | error e =>
      unfold processJob handleFailure
      simp only [hc, if_false, hai]
      by_cases hm : MAX_ATTEMPTS ≤ job.attempts + 1 <;>
        simp [hm, logEvent, getOrCreateMapping_nextId]
    | ok resp =>
      unfold processJob handleFailure
      simp only [hc, if_false, hai]
      by_cases hs : (sendWhatsAppMessage cfg
          ⟨job.wa_id, resp.text, decide ((cfg.send_mode.getD "text") = "template"
            ∧ cfg.template_name.isSome)⟩ env.net).success
      · simp only [hs, if_true]
        split <;>
          simp [logEvent, getOrCreateMapping_nextId, upsertMappingConv_nextId]
      · simp only [hs, Bool.false_eq_true, if_false]
        by_cases hm : MAX_ATTEMPTS ≤ job.attempts + 1 <;>
          simp only [hm, if_true, if_false] <;>
          split <;>
            simp [logEvent, getOrCreateMapping_nextId, upsertMappingConv_nextId]

theorem processJob_events_failed (db : DB) (job : Job) (cfg : Config)
    (env : LibEnv) (now : Nat)
    (hf : attemptFails cfg job.content env = true)
    (hm : MAX_ATTEMPTS ≤ job.attempts + 1) :
    (processJob db job cfg env now).db.events
      = db.events ++ [⟨"job_failed", some job.wa_id, some job.id,
          some (failMsg cfg job.content env)⟩] := by
  by_cases hc : job.content.getD "" = ""
  · unfold processJob failMsg handleFailure
    simp only [hc, if_true]
    simp [hm, logEvent]
  · cases hai : env.aiResult with
    | error e =>
      unfold processJob failMsg handleFailure
      simp only [hc, if_false, hai]
      simp [hm, logEvent, getOrCreateMapping_events]
    | ok resp =>
      unfold processJob failMsg handleFailure
      simp only [hc, if_false, hai]
      rw [sendWhatsAppMessage_opts_indep cfg
        ⟨job.wa_id, resp.text, decide ((cfg.send_mode.getD "text") = "template"
          ∧ cfg.template_name.isSome)⟩ ⟨"", "", false⟩ env.net]
      by_cases hs : (sendWhatsAppMessage cfg ⟨"", "", false⟩ env.net).success
      · exfalso
        unfold attemptFails at hf
        simp [hc, hai, hs] at hf
      · simp only [hs, Bool.false_eq_true, if_false]
        simp only [hm, if_true]
        split <;>
          simp [logEvent, getOrCreateMapping_events, upsertMappingConv_events]

end JobQueue

/-! ### The debounce invariant under serialized execution -/

theorem countP_updateJobRow_mono (l : List Job) (i : Nat) (f : Job → Job)
    (p : Job → Bool) (h : ∀ r ∈ l, r.id = i → p (f r) = true → p r = true) :
    (updateJobRow l i f).countP p ≤ l.countP p := by
  simp only [updateJobRow]
  rw [List.countP_map]
  refine List.countP_mono_left fun r hr hpr => ?_
  by_cases hi : r.id = i
  · simp only [Function.comp, hi, if_true] at hpr
    exact h r hr hi hpr
  · simpa [Function.comp, hi] using hpr

namespace JobQueue

theorem pendingCount_filter (db : DB) (w : String) :
    pendingCount db w = (db.jobs.filter fun x =>
      decide (x.wa_id = w ∧ x.status = JobStatus.pending)).length := by
  unfold pendingCount
  exact List.countP_eq_length_filter _ _

theorem findPendingJob_some (db : DB) (w : String) (j : Job)
    (h : findPendingJob db w = some j) :
    j ∈ db.jobs ∧ j.wa_id = w ∧ j.status = JobStatus.pending := by
  unfold findPendingJob at h
  cases hf : db.jobs.filter
      (fun x => decide (x.wa_id = w ∧ x.status = JobStatus.pending)) with
  | nil => rw [hf] at h; exact absurd h (by simp)
  | cons a rest =>
    cases rest with
    | nil =>
      rw [hf] at h
      obtain rfl : a = j := by simpa using h
      have hmem : a ∈ db.jobs.filter
          (fun x => decide (x.wa_id = w ∧ x.status = JobStatus.pending)) := by
        rw [hf]; exact List.mem_singleton_self a
      have hm := List.mem_filter.mp hmem
      have hp := of_decide_eq_true hm.2
      exact ⟨hm.1, hp.1, hp.2⟩
    | cons b rest2 => rw [hf] at h; exact absurd h (by simp)

theorem findPendingJob_none (db : DB) (w : String)
    (hle : pendingCount db w ≤ 1) (h : findPendingJob db w = none) :
    pendingCount db w = 0 := by
  rw [pendingCount_filter] at hle ⊢
  unfold findPendingJob at h
  cases hf : db.jobs.filter
      (fun x => decide (x.wa_id = w ∧ x.status = JobStatus.pending)) with
  | nil => simp [hf]
  | cons a rest =>
    cases rest with
    | nil => rw [hf] at h; exact absurd h (by simp)
    | cons b rest2 =>
      rw [hf] at hle
      simp at hle

/-- One serialized `scheduleOrDebounceJob` call (lookup succeeding,
update/insert outcome arbitrary) preserves well-formedness and the
at-most-one-pending invariant. -/
theorem enqueue_preserves (db : DB) (w c : String) (now : Nat) (cfg : Config)
    (uf ins : Bool) (hwf : JobsWF db) (hone : atMostOnePending db) :
    JobsWF (scheduleOrDebounceJob db w c now cfg ⟨false, uf, ins⟩).db
      ∧ atMostOnePending (scheduleOrDebounceJob db w c now cfg ⟨false, uf, ins⟩).db := by
  unfold scheduleOrDebounceJob
  simp only [Bool.false_eq_true, if_false]
  cases hfind : findPendingJob db w with
  | some ej =>
    cases uf with
    | true => exact ⟨hwf, hone⟩
    | false =>
      simp only [Bool.false_eq_true, if_false]
      set f : Job → Job := fun j =>
        { j with scheduled_for := now + debounceMs cfg,
                 content := some (if ej.content.getD "" = "" then c
                   else ej.content.getD "" ++ "\n" ++ c),
                 updated_at := now } with hfdef
      have hfid : ∀ r : Job, (f r).id = r.id := fun r => rfl
      constructor
      · constructor
        · rw [map_id_updateJobRow _ _ _ hfid]
          exact hwf.1
        · intro j hj
          rcases mem_updateJobRow _ _ _ _ hj with ⟨a, ha, hrw⟩
          have := hwf.2 a ha
          by_cases hi : a.id = ej.id <;> simp [hi] at hrw <;> subst hrw <;>
            simpa using this
      · intro v
        unfold pendingCount
        simp only
        rw [countP_updateJobRow _ _ _ _ (fun r => by simp)]
        exact hone v
  | none =>
    cases ins with
    | true => exact ⟨hwf, hone⟩
    | false =>
      simp only [Bool.false_eq_true, if_false]
      constructor
      · constructor
        · simp only [List.map_append, List.map_cons, List.map_nil]
          rw [List.nodup_append]
          refine ⟨hwf.1, List.nodup_singleton _, ?_⟩
          intro x hx
          simp only [List.mem_singleton]
          intro hxe
          rcases List.mem_map.mp hx with ⟨a, ha, rfl⟩
          exact absurd (hxe ▸ hwf.2 a ha) (lt_irrefl _)
        · intro j hj
          rcases List.mem_append.mp hj with hj | hj
          · exact Nat.lt_succ_of_lt (hwf.2 j hj)
          · simp only [List.mem_singleton] at hj
            subst hj
            exact Nat.lt_succ_self _
      · intro v
        unfold pendingCount
        simp only
        rw [List.countP_append]
        by_cases hv : v = w
        · subst hv
          have h0 := findPendingJob_none db v (hone v) hfind
          unfold pendingCount at h0
          rw [h0]
          simp
        · have hz : List.countP (fun x =>
              decide (x.wa_id = v ∧ x.status = JobStatus.pending))
              ([{ id := db.nextId, wa_id := w, status := JobStatus.pending,
                  scheduled_for := now + debounceMs cfg, content := some c,
                  attempts := 0, last_error := none, updated_at := now }] : List Job)
              = 0 := by
            rw [List.countP_eq_zero]
            intro a ha
            rw [List.mem_singleton] at ha
            subst ha
            intro hpa
            have hwv : w = v := (of_decide_eq_true hpa).1
            exact hv hwv.symm
          rw [hz, Nat.add_zero]
          exact hone v

/-- One serialized lib `processJob` call on a currently pending row
preserves well-formedness and the at-most-one-pending invariant. -/
theorem process_preserves (db : DB) (j : Job) (cfg : Config) (env : LibEnv)
    (now : Nat) (hwf : JobsWF db) (hone : atMostOnePending db)
    (hj : j ∈ db.jobs) (hp : j.status = JobStatus.pending) :
    JobsWF (processJob db j cfg env now).db
      ∧ atMostOnePending (processJob db j cfg env now).db := by
  have hjobs := processJob_jobs db j cfg env now
  have hnext := processJob_nextId db j cfg env now
  have hfid : ∀ r : Job, (finalUpdate j cfg env now r).id = r.id := by
    intro r
    unfold finalUpdate
    by_cases hf : attemptFails cfg j.content env <;>
      [skip; simp [hf]] <;>
      by_cases hm : MAX_ATTEMPTS ≤ j.attempts + 1 <;> simp [hf, hm]
  have hfwa : ∀ r : Job, (finalUpdate j cfg env now r).wa_id = r.wa_id := by
    intro r
    unfold finalUpdate
    by_cases hf : attemptFails cfg j.content env <;>
      [skip; simp [hf]] <;>
      by_cases hm : MAX_ATTEMPTS ≤ j.attempts + 1 <;> simp [hf, hm]
  constructor
  · constructor
    · rw [hjobs, map_id_updateJobRow _ _ _ hfid]
      exact hwf.1
    · intro r hr
      rw [hjobs] at hr
      rcases mem_updateJobRow _ _ _ _ hr with ⟨a, ha, hrw⟩
      rw [hnext]
      have := hwf.2 a ha
      by_cases hi : a.id = j.id <;> simp [hi] at hrw <;> subst hrw
      · rw [hfid a]; exact this
      · exact this
  · intro v
    unfold pendingCount
    rw [hjobs]
    refine Nat.le_trans (countP_updateJobRow_mono _ _ _ _ ?_) (hone v)
    intro r hr hri hpr
    have hrj : r = j := List.inj_on_of_nodup_map hwf.1 hr hj hri
    subst hrj
    have hwa := hfwa r
    have hpr2 := of_decide_eq_true hpr
    refine decide_eq_true ?_
    exact ⟨hwa ▸ hpr2.1, hp⟩

/-- Serialized reachability preserves the combined invariant. -/
theorem serial_inv (s0 s : DB) (hr : SerialReachable s0 s)
    (h0 : JobsWF s0 ∧ atMostOnePending s0) :
    JobsWF s ∧ atMostOnePending s := by
  induction hr with
  | refl => exact h0
  | tail _ hlast ih =>
    cases hlast with
    | enqueue w cc now cfg uf ins =>
      exact enqueue_preserves _ w cc now cfg uf ins ih.1 ih.2
    | process jj cfg env now hj hp =>
      exact process_preserves _ jj cfg env now ih.1 ih.2 hj hp

end JobQueue

/-! ### Terminal failure is permanent under serialized execution -/

/-- Every row with id `i` is in the terminal Failed state (and `i` is below
the id sequence, so no future insert can reuse it). -/
def rowFailed (db : DB) (i : Nat) : Prop :=
  (∀ r ∈ db.jobs, r.id = i → r.status = JobStatus.failed) ∧ i < db.nextId

theorem failedRows_updateJobRow_keep (l : List Job) (i k : Nat) (f : Job → Job)
    (hfid : ∀ r, (f r).id = r.id) (hfst : ∀ r, (f r).status = r.status)
    (h : ∀ r ∈ l, r.id = i → r.status = JobStatus.failed) :
    ∀ r ∈ updateJobRow l k f, r.id = i → r.status = JobStatus.failed := by
  intro r hr hri
  rcases mem_updateJobRow _ _ _ _ hr with ⟨a, ha, hrw⟩
  by_cases hak : a.id = k
  · rw [if_pos hak] at hrw
    subst hrw
    rw [hfst a]
    exact h a ha ((hfid a) ▸ hri)
  · rw [if_neg hak] at hrw
    rw [hrw] at hri ⊢
    exact h a ha hri

theorem failedRows_updateJobRow_ne (l : List Job) (i k : Nat) (f : Job → Job)
    (hfid : ∀ r, (f r).id = r.id) (hki : k ≠ i)
    (h : ∀ r ∈ l, r.id = i → r.status = JobStatus.failed) :
    ∀ r ∈ updateJobRow l k f, r.id = i → r.status = JobStatus.failed := by
  intro r hr hri
  rcases mem_updateJobRow _ _ _ _ hr with ⟨a, ha, hrw⟩
  by_cases hak : a.id = k
  · rw [if_pos hak] at hrw
    subst hrw
    exact absurd (((hfid a) ▸ hri : a.id = i) ▸ hak : i = k).symm hki
  · rw [if_neg hak] at hrw
    rw [hrw] at hri ⊢
    exact h a ha hri

namespace JobQueue

theorem rowFailed_enqueue (db : DB) (w c : String) (now : Nat) (cfg : Config)
    (uf ins : Bool) (i : Nat) (hrf : rowFailed db i) :
    rowFailed (scheduleOrDebounceJob db w c now cfg ⟨false, uf, ins⟩).db i := by
  unfold scheduleOrDebounceJob
  simp only [Bool.false_eq_true, if_false]
  cases hfind : findPendingJob db w with
  | some ej =>
    cases uf with
    | true => exact hrf
    | false =>
      simp only [Bool.false_eq_true, if_false]
      exact ⟨failedRows_updateJobRow_keep _ i ej.id _
        (fun r => rfl) (fun r => rfl) hrf.1, hrf.2⟩
  | none =>
    cases ins with
    | true => exact hrf
    | false =>
      simp only [Bool.false_eq_true, if_false]
      refine ⟨?_, Nat.lt_succ_of_lt hrf.2⟩
      intro r hr hri
      rcases List.mem_append.mp hr with hr | hr
      · exact hrf.1 r hr hri
      · rw [List.mem_singleton] at hr
        subst hr
        exact absurd (hri ▸ hrf.2) (lt_irrefl _)

theorem rowFailed_process (db : DB) (j : Job) (cfg : Config) (env : LibEnv)
    (now : Nat) (i : Nat) (hj : j ∈ db.jobs) (hp : j.status = JobStatus.pending)
    (hrf : rowFailed db i) :
    rowFailed (processJob db j cfg env now).db i := by
  have hjobs := processJob_jobs db j cfg env now
  have hnext := processJob_nextId db j cfg env now
  have hij : j.id ≠ i := by
    intro hcon
    have := hrf.1 j hj hcon
    rw [hp] at this
    exact JobStatus.noConfusion this
  have hfid : ∀ r : Job, (finalUpdate j cfg env now r).id = r.id := by
    intro r
    unfold finalUpdate
    by_cases hf : attemptFails cfg j.content env
    · by_cases hm : MAX_ATTEMPTS ≤ j.attempts + 1 <;> simp [hf, hm]
    · simp [hf]
  refine ⟨?_, hnext ▸ hrf.2⟩
  rw [hjobs]
  exact failedRows_updateJobRow_ne _ i j.id _ hfid hij hrf.1

theorem rowFailed_reachable (s0 s : DB) (i : Nat) (hr : SerialReachable s0 s)
    (h0 : rowFailed s0 i) : rowFailed s i := by
  induction hr with
  | refl => exact h0
  | tail _ hlast ih =>
    cases hlast with
    | enqueue w cc now cfg uf ins => exact rowFailed_enqueue _ w cc now cfg uf ins i ih
    | process jj cfg env now hj hp => exact rowFailed_process _ jj cfg env now i hj hp ih

theorem readyJobs_excludes_failed (db : DB) (i : Nat) (hrf : rowFailed db i)
    (t : Nat) (r : Job) (hr : r ∈ readyJobs db t) : r.id ≠ i := by
  intro hcon
  rcases readyJobs_mem db t r hr with ⟨hmem, hpend, _⟩
  have := hrf.1 r hmem hcon
  rw [hpend] at this
  exact JobStatus.noConfusion this

end JobQueue

/-! ### Debounce merging machinery -/

theorem filter_updateJobRow (l : List Job) (i : Nat) (f : Job → Job)
    (p : Job → Bool) (hp : ∀ r, p (f r) = p r) :
    (updateJobRow l i f).filter p
      = (l.filter p).map (fun r => if r.id = i then f r else r) := by
  simp only [updateJobRow]
  rw [List.filter_map]
  congr 1
  refine List.filter_congr fun r _ => ?_
  by_cases h : r.id = i <;> simp [Function.comp, h, hp r]

namespace JobQueue

/-- The pending-row predicate of the debounce lookup. -/
def pendPred (w : String) : Job → Bool :=
  fun x => decide (x.wa_id = w ∧ x.status = JobStatus.pending)

theorem findPendingJob_def (db : DB) (w : String) :
    findPendingJob db w
      = match db.jobs.filter (pendPred w) with
        | [j] => some j
        | _ => none := rfl

theorem pendingCount_def (db : DB) (w : String) :
    pendingCount db w = (db.jobs.filter (pendPred w)).length :=
  List.countP_eq_length_filter _ _

/-- A debouncing enqueue call on a state whose unique pending row for `w`
holds `acc` updates exactly that row: content `accJoin acc c`, deadline
`t + debounceMs cfg`. -/
theorem enqueue_debounce_step (db : DB) (w c : String) (t : Nat)
    (cfg : Config) (r : Job) (hfl : db.jobs.filter (pendPred w) = [r])
    (acc : String) (hacc : r.content = some acc) :
    (scheduleOrDebounceJob db w c t cfg ⟨false, false, false⟩).db.jobs.filter
        (pendPred w)
      = [{ r with scheduled_for := t + (debounceMs cfg),
                  content := some (accJoin acc c), updated_at := t }] := by
  have hfind : findPendingJob db w = some r := by
    rw [findPendingJob_def, hfl]
  unfold scheduleOrDebounceJob
  simp only [Bool.false_eq_true, if_false, hfind]
  refine Eq.trans (filter_updateJobRow _ _ _ _ ?_) ?_
  · intro x
    rfl
  · rw [hfl]
    simp only [List.map_cons, List.map_nil]
    rw [hacc]
    simp [accJoin]

/-- An enqueue call with no pending row for `w` inserts a fresh pending row
carrying the fragment. -/
theorem enqueue_insert_step (db : DB) (w c : String) (t : Nat) (cfg : Config)
    (h0 : db.jobs.filter (pendPred w) = []) :
    (scheduleOrDebounceJob db w c t cfg ⟨false, false, false⟩).db.jobs.filter
        (pendPred w)
      = [{ id := db.nextId, wa_id := w, status := JobStatus.pending,
             scheduled_for := t + (debounceMs cfg), content := some c,
             attempts := 0, last_error := none, updated_at := t }] := by
  have hfind : findPendingJob db w = none := by
    rw [findPendingJob_def, h0]
  unfold scheduleOrDebounceJob
  simp only [Bool.false_eq_true, if_false, hfind]
  rw [List.filter_append, h0]
  simp [pendPred]

theorem enqueueSeq_filter (w : String) (cfg : Config) :
    ∀ calls : List (Nat × String), ∀ db : DB, ∀ r : Job, ∀ acc : String,
      db.jobs.filter (pendPred w) = [r] → r.content = some acc →
      ∃ r2 : Job,
        (enqueueSeq db w cfg calls).jobs.filter (pendPred w) = [r2]
          ∧ r2.content
              = some (calls.foldl (fun a pc => accJoin a pc.2) acc) := by
  intro calls
  induction calls with
  | nil =>
    intro db r acc h1 h2
    exact ⟨r, h1, by simpa [enqueueSeq] using h2⟩
  | cons pc rest ih =>
    intro db r acc h1 h2
    obtain ⟨t, c⟩ := pc
    have hstep := enqueue_debounce_step db w c t cfg r h1 acc h2
    unfold enqueueSeq
    simpa using ih _ _ (accJoin acc c) hstep rfl

end JobQueue

/-! ### Relating the accumulated content to the newline join -/

theorem append_nl_ne_empty (a b : String) : a ++ "\n" ++ b ≠ "" := by
  intro h
  have hlen := congrArg String.length h
  rw [String.length_append, String.length_append] at hlen
  have h1 : ("\n" : String).length = 1 := rfl
  have h0 : ("" : String).length = 0 := rfl
  omega

theorem joinNewline_cons_append (a b : String) (rest : List String) :
    joinNewline ((a ++ "\n" ++ b) :: rest) = a ++ "\n" ++ joinNewline (b :: rest) := by
  cases rest with
  | nil => rfl
  | cons g rest2 =>
    show (a ++ "\n" ++ b) ++ "\n" ++ joinNewline (g :: rest2)
      = a ++ "\n" ++ (b ++ "\n" ++ joinNewline (g :: rest2))
    simp [String.append_assoc]

theorem foldl_accJoin_ne (frags : List String) : ∀ acc : String, acc ≠ "" →
    List.foldl JobQueue.accJoin acc frags = joinNewline (acc :: frags) := by
  induction frags with
  | nil => intro acc _; rfl
  | cons f rest ih =>
    intro acc hacc
    show List.foldl JobQueue.accJoin (JobQueue.accJoin acc f) rest
      = joinNewline (acc :: f :: rest)
    have hjoin : JobQueue.accJoin acc f = acc ++ "\n" ++ f := by
      unfold JobQueue.accJoin
      rw [if_neg hacc]
    rw [hjoin, ih _ (append_nl_ne_empty acc f), joinNewline_cons_append]
    rfl

theorem foldl_accJoin_empty (frags : List String) :
    List.foldl JobQueue.accJoin "" frags
      = joinNewline (frags.dropWhile (fun s => decide (s = ""))) := by
  induction frags with
  | nil => rfl
  | cons c rest ih =>
    show List.foldl JobQueue.accJoin (JobQueue.accJoin "" c) rest
      = joinNewline ((c :: rest).dropWhile (fun s => decide (s = "")))
    have hacc : JobQueue.accJoin "" c = c := by
      unfold JobQueue.accJoin
      rw [if_pos rfl]
    rw [hacc]
    by_cases hc : c = ""
    · subst hc
      rw [List.dropWhile_cons_of_pos (by simp)]
      exact ih
    · rw [List.dropWhile_cons_of_neg (by simp [hc])]
      exact foldl_accJoin_ne rest c hc

/-! ### Concrete states used by witnesses and counterexamples -/

/-- Empty config (all keys absent). -/
def exCfg : Config := ⟨none, none, none, none, none, none⟩

/-- Config with WhatsApp credentials present. -/
def exCfgCreds : Config := ⟨none, none, none, none, some "pid", some "tok"⟩

/-- A pending job with content, one attempt budget untouched. -/
def exJob : Job := ⟨1, "u", JobStatus.pending, 0, some "hi", 0, none, 0⟩

/-- A state whose only job is `exJob` and whose only mapping has
`blocked = true` for the same user. -/
def exDbBlocked : DB := ⟨[exJob], [⟨"u", true, none, none, none⟩], [], 2⟩

/-- A state whose only job is `exJob`, with no mapping rows. -/
def exDbPlain : DB := ⟨[exJob], [], [], 2⟩

/-- Adapter oracle: AI succeeds, send succeeds. -/
def exEnvOk : JobQueue.LibEnv := ⟨Except.ok ⟨"reply", "c9"⟩, NetOutcome.ok (some "mid")⟩

/-- Adapter oracle: AI query throws. -/
def exEnvAiFail : JobQueue.LibEnv := ⟨Except.error "AI down", NetOutcome.netError "x"⟩

/-- Worker adapter oracle: contact ok, Chatbase query throws. -/
def exWEnvFail : Worker.WEnv :=
  ⟨Except.ok none, Except.error "Chatbase API error: 500", Except.ok ()⟩

/-- A pending job with no content. -/
def exJobNoContent : Job := ⟨1, "u", JobStatus.pending, 0, none, 0, none, 0⟩

/-- A state whose only job has no content. -/
def exDbNoContent : DB := ⟨[exJobNoContent], [], [], 2⟩

/-- The empty state. -/
def exDbEmpty : DB := ⟨[], [], [], 1⟩

/-- `exJob` after being marked Processing at time 50. -/
def c2J1 : Job := ⟨1, "u", JobStatus.processing, 0, some "hi", 0, none, 50⟩

/-- State after the poller marked `exJob` Processing. -/
def c2S1 : DB :=
  { exDbPlain with jobs := updateJobRow exDbPlain.jobs exJob.id fun r =>
      { r with status := JobStatus.processing, updated_at := 50 } }

/-- State after an enqueue call interleaves while the job is Processing:
no pending row is found, so a second job for `"u"` is inserted. -/
def c2S2 : DB :=
  (JobQueue.scheduleOrDebounceJob c2S1 "u" "more" 60 exCfg ⟨false, false, false⟩).db

/-- State after the failure path moves the Processing job back to Pending. -/
def c2S3 : DB :=
  { c2S2 with jobs := updateJobRow c2S2.jobs c2J1.id fun r =>
      { r with status := JobStatus.pending,
               scheduled_for := 70 + 2 ^ (c2J1.attempts + 1) * 5 * 1000,
               attempts := c2J1.attempts + 1, last_error := some "AI down",
               updated_at := 70 } }

/-! ### Claim theorems -/

/-- C1, counterexample: the claim fails on the lib job processor
(src/lib/job-queue.ts `processJob`): on a state whose mapping for the job's
user has `blocked = true`, it invokes the AI adapter once and never reaches
Skipped (here the attempt fails and the job is rescheduled Pending), even
though the user is blocked. -/
theorem c1_counterexample :
    exDbBlocked.mappings = [⟨"u", true, none, none, none⟩]
      ∧ (JobQueue.processJob exDbBlocked exJob exCfg exEnvAiFail 100).aiCalls = 1
      ∧ (∀ r ∈ (JobQueue.processJob exDbBlocked exJob exCfg exEnvAiFail 100).db.jobs,
          r.status ≠ JobStatus.skipped ∧ r.last_error ≠ some "User is blocked") := by
  decide

/-- C1, amended: the worker job processor (src/backend/index.js
`processJob`) short-circuits a blocked user's job to Skipped with
`last_error = "User is blocked"`, a `job_skipped_blocked` event, zero
AI-adapter and zero outbound-adapter invocations, and no change to any
other field (in particular `attempts` is not incremented). -/
theorem c1_worker_block_short_circuit (db : DB) (job : Job)
    (env : Worker.WEnv) (now : Nat) (m : Mapping)
    (hm : Worker.getMapping db job.wa_id = some m) (hb : m.blocked = true) :
    (Worker.processJob db job env now).aiCalls = 0
      ∧ (Worker.processJob db job env now).sendCalls = 0
      ∧ (Worker.processJob db job env now).db.jobs
          = updateJobRow db.jobs job.id (fun j =>
              { j with status := JobStatus.skipped,
                       last_error := some "User is blocked", updated_at := now })
      ∧ (⟨"job_skipped_blocked", some job.wa_id, some job.id, none⟩ : EventLog)
          ∈ (Worker.processJob db job env now).db.events := by
  unfold Worker.processJob
  rw [hm]
  have hcond : (((some m).map (fun x => x.blocked)).getD false) = true := by
    simp [hb]
  rw [if_pos hcond]
  refine ⟨rfl, rfl, rfl, ?_⟩
  simp [logEvent]

/-- C1 witness: the amended theorem applied to the concrete blocked state. -/
theorem c1_witness :
    Worker.getMapping exDbBlocked "u" = some ⟨"u", true, none, none, none⟩
      ∧ (Worker.processJob exDbBlocked exJob exWEnvFail 100).aiCalls = 0
      ∧ (Worker.processJob exDbBlocked exJob exWEnvFail 100).sendCalls = 0 := by
  have h := c1_worker_block_short_circuit exDbBlocked exJob exWEnvFail 100
    ⟨"u", true, none, none, none⟩ (by decide) rfl
  exact ⟨by decide, h.1, h.2.1⟩

/-- C2, counterexample: the debounce invariant fails under fine-grained
interleaving.  From a well-formed state with one pending job, the sequence
mark-Processing, interleaved enqueue (which finds no pending row and inserts
a second job), failure-retry (which moves the original row back to Pending)
reaches a state with two Pending jobs for the same user — the §5 race. -/
theorem c2_counterexample :
    atMostOnePending exDbPlain ∧ FineReachable exDbPlain c2S3
      ∧ ¬ atMostOnePending c2S3 := by
  refine ⟨?_, ?_, ?_⟩
  · intro w
    exact List.countP_le_length _
  · show Relation.ReflTransGen FineStep exDbPlain c2S3
    exact Relation.ReflTransGen.tail
      (Relation.ReflTransGen.tail
        (Relation.ReflTransGen.tail Relation.ReflTransGen.refl
          (FineStep.markProcessing exDbPlain exJob 50 (by decide) rfl))
        (FineStep.enqueue c2S1 "u" "more" 60 exCfg))
      (FineStep.retryFailure c2S2 c2J1 70 "AI down" (by decide) rfl (by decide))
  · intro h
    have h2 := h "u"
    revert h2
    decide

/-- C2, amended: under serialized whole-call execution (each enqueue call
and each `processJob` call on a currently pending row runs to completion
with no interleaving), every state reachable from a well-formed state
satisfying the debounce invariant still has at most one Pending job per
user. -/
theorem c2_amended_serialized_invariant (s0 s : DB) (h0 : JobsWF s0)
    (h1 : atMostOnePending s0) (hr : SerialReachable s0 s) :
    atMostOnePending s :=
  (JobQueue.serial_inv s0 s hr ⟨h0, h1⟩).2

/-- C2 witness: the amended theorem applied to a concrete serialized run
(an enqueue followed by a processing step). -/
theorem c2_witness :
    pendingCount ((JobQueue.scheduleOrDebounceJob exDbEmpty "u" "hi" 0 exCfg
      ⟨false, false, false⟩).db) "u" ≤ 1 := by
  have h := c2_amended_serialized_invariant exDbEmpty
    ((JobQueue.scheduleOrDebounceJob exDbEmpty "u" "hi" 0 exCfg
      ⟨false, false, false⟩).db)
    ⟨List.nodup_nil, fun j hj => absurd hj (List.not_mem_nil j)⟩
    (fun w => by simp [pendingCount, exDbEmpty])
    (Relation.ReflTransGen.tail Relation.ReflTransGen.refl
      (SerialStep.enqueue exDbEmpty "u" "hi" 0 exCfg false false))
  exact h "u"

/-- C3, counterexample: with a leading empty fragment the final content is
not the newline join of the fragments.  Two calls with fragments `""` then
`"a"` leave one pending job whose content is `"a"`, while the newline join
of the fragments is `"\na"`. -/
theorem c3_counterexample :
    pendingCount (JobQueue.enqueueSeq exDbEmpty "u" exCfg [(0, ""), (1000, "a")]) "u" = 1
      ∧ (∀ r ∈ (JobQueue.enqueueSeq exDbEmpty "u" exCfg [(0, ""), (1000, "a")]).jobs,
          r.content = some "a")
      ∧ joinNewline ["", "a"] = "\n" ++ "a"
      ∧ some ("a" : String) ≠ some (joinNewline ["", "a"]) := by
  decide

/-- C3, amended: for `N ≥ 1` enqueue calls for one user, each within the
debounce window of the previous one, persistence succeeding and no poller
run in between, starting from a state with no pending job for that user:
exactly one Pending job for the user exists afterwards and its content is
the text fragments joined by newline in call order, after dropping the
leading run of empty fragments (the code treats empty accumulated content
as absent and restarts from the next fragment). -/
theorem c3_amended_debounce_merging (db : DB) (w : String) (cfg : Config)
    (calls : List (Nat × String)) (h0 : pendingCount db w = 0)
    (hne : calls ≠ [])
    (htime : List.Chain' (fun a b => b.1 < a.1 + JobQueue.debounceMs cfg) calls) :
    pendingCount (JobQueue.enqueueSeq db w cfg calls) w = 1
      ∧ ∃ r ∈ (JobQueue.enqueueSeq db w cfg calls).jobs,
          r.wa_id = w ∧ r.status = JobStatus.pending
            ∧ r.content = some (joinNewline ((calls.map Prod.snd).dropWhile
                (fun s => decide (s = "")))) := by
  cases calls with
  | nil => exact absurd rfl hne
  | cons pc rest =>
    obtain ⟨t, c⟩ := pc
    have hfl0 : db.jobs.filter (JobQueue.pendPred w) = [] := by
      rw [JobQueue.pendingCount_def] at h0
      exact List.length_eq_zero.mp h0
    have hstep := JobQueue.enqueue_insert_step db w c t cfg hfl0
    have hseq := JobQueue.enqueueSeq_filter w cfg rest
      (JobQueue.scheduleOrDebounceJob db w c t cfg ⟨false, false, false⟩).db
      _ c hstep rfl
    obtain ⟨r2, hfil2, hcont⟩ := hseq
    have hfinal : (JobQueue.enqueueSeq db w cfg ((t, c) :: rest)).jobs.filter
        (JobQueue.pendPred w) = [r2] := by
      unfold JobQueue.enqueueSeq
      exact hfil2
    constructor
    · rw [JobQueue.pendingCount_def, hfinal]
      rfl
    · have hr2mem : r2 ∈ (JobQueue.enqueueSeq db w cfg ((t, c) :: rest)).jobs ∧
          JobQueue.pendPred w r2 = true := by
        have : r2 ∈ (JobQueue.enqueueSeq db w cfg ((t, c) :: rest)).jobs.filter
            (JobQueue.pendPred w) := by
          rw [hfinal]; exact List.mem_singleton_self r2
        exact List.mem_filter.mp this
      have hpp := of_decide_eq_true hr2mem.2
      refine ⟨r2, hr2mem.1, hpp.1, hpp.2, ?_⟩
      rw [hcont]
      congr 1
      have hc0 : JobQueue.accJoin "" c = c := by
        unfold JobQueue.accJoin
        rw [if_pos rfl]
      calc rest.foldl (fun a pc => JobQueue.accJoin a pc.2) c
          = (rest.map Prod.snd).foldl JobQueue.accJoin c :=
            (List.foldl_map _ _ _ _).symm
        _ = (rest.map Prod.snd).foldl JobQueue.accJoin (JobQueue.accJoin "" c) := by
            rw [hc0]
        _ = List.foldl JobQueue.accJoin "" (c :: rest.map Prod.snd) := rfl
        _ = joinNewline ((c :: rest.map Prod.snd).dropWhile
              (fun s => decide (s = ""))) := foldl_accJoin_empty _
        _ = joinNewline ((((t, c) :: rest).map Prod.snd).dropWhile
              (fun s => decide (s = ""))) := rfl

/-- C3 witness: the amended theorem applied to the spec's own concrete
scenario (two calls one second apart). -/
theorem c3_witness :
    pendingCount (JobQueue.enqueueSeq exDbEmpty "u" exCfg
      [(0, "Hello"), (1000, "are you there?")]) "u" = 1 :=
  (c3_amended_debounce_merging exDbEmpty "u" exCfg
    [(0, "Hello"), (1000, "are you there?")] (by decide) (by decide)
    (by rw [List.chain'_cons]
        exact ⟨by decide, List.chain'_singleton _⟩)).1

/-- C4 (confirmed): every enqueue call that finds a Pending job for the
user resets that job's `scheduled_for` to `now + debounceMs cfg` (with
`debounceMs` defaulting to 3000 when the config key is absent), and the job
is therefore not selected by the ready-job query at any instant earlier
than `now + debounceMs cfg`. -/
theorem c4_sliding_debounce (db : DB) (w c : String) (now : Nat)
    (cfg : Config) (j : Job) (hfind : JobQueue.findPendingJob db w = some j) :
    (cfg.debounce_ms = none → JobQueue.debounceMs cfg = 3000)
      ∧ (∀ r ∈ (JobQueue.scheduleOrDebounceJob db w c now cfg
            ⟨false, false, false⟩).db.jobs,
          r.id = j.id → r.scheduled_for = now + JobQueue.debounceMs cfg)
      ∧ (∀ t, t < now + JobQueue.debounceMs cfg →
          ∀ r ∈ JobQueue.readyJobs ((JobQueue.scheduleOrDebounceJob db w c now cfg
            ⟨false, false, false⟩).db) t, r.id ≠ j.id) := by
  have hset : ∀ r ∈ (JobQueue.scheduleOrDebounceJob db w c now cfg
      ⟨false, false, false⟩).db.jobs,
      r.id = j.id → r.scheduled_for = now + JobQueue.debounceMs cfg := by
    unfold JobQueue.scheduleOrDebounceJob
    simp only [Bool.false_eq_true, if_false, hfind]
    intro r hr hri
    rcases mem_updateJobRow _ _ _ _ hr with ⟨a, ha, hrw⟩
    by_cases hai : a.id = j.id
    · rw [if_pos hai] at hrw
      rw [hrw]
    · rw [if_neg hai] at hrw
      rw [hrw] at hri
      exact absurd hri hai
  refine ⟨fun h => by simp [JobQueue.debounceMs, h], hset, ?_⟩
  intro t ht r hr hri
  rcases JobQueue.readyJobs_mem _ t r hr with ⟨hmem, _, hsched⟩
  have := hset r hmem hri
  omega

/-- C4 witness: the theorem applied to the concrete one-pending-job state;
the default window is 3000 ms and the rescheduled row carries it. -/
theorem c4_witness :
    JobQueue.debounceMs exCfg = 3000
      ∧ ((JobQueue.scheduleOrDebounceJob exDbPlain "u" "more" 100 exCfg
            ⟨false, false, false⟩).db.jobs.filter
          (fun r => decide (r.scheduled_for = 100 + JobQueue.debounceMs exCfg))).length
        = 1 := by
  have h := c4_sliding_debounce exDbPlain "u" "more" 100 exCfg exJob (by decide)
  exact ⟨h.1 rfl, by decide⟩

/-- C5 (confirmed): a pending job with a fresh attempt budget whose
processing (lib path) fails three consecutive times — each poller pass
re-fetching the row left by the previous failure — ends Failed with
`attempts = MAX_ATTEMPTS`, its last error persisted, a `job_failed` event
emitted, and no row with its id is ever selected by the ready-job query
again, in the final state or in any serialized-reachable later state. -/
theorem c5_retry_bound (db : DB) (cfg : Config) (j : Job)
    (e1 e2 e3 : JobQueue.LibEnv) (n1 n2 n3 : Nat)
    (hj : j ∈ db.jobs) (hwf : JobsWF db)
    (_hp : j.status = JobStatus.pending) (ha : j.attempts = 0)
    (h1 : JobQueue.attemptFails cfg j.content e1 = true)
    (h2 : JobQueue.attemptFails cfg j.content e2 = true)
    (h3 : JobQueue.attemptFails cfg j.content e3 = true) :
    let j1 : Job := { j with
        status := JobStatus.pending,
        scheduled_for := n1 + 2 ^ (j.attempts + 1) * 5 * 1000,
        attempts := j.attempts + 1,
        last_error := some (JobQueue.failMsg cfg j.content e1),
        updated_at := n1 }
    let db1 := (JobQueue.processJob db j cfg e1 n1).db
    let j2 : Job := { j1 with
        scheduled_for := n2 + 2 ^ (j1.attempts + 1) * 5 * 1000,
        attempts := j1.attempts + 1,
        last_error := some (JobQueue.failMsg cfg j.content e2),
        updated_at := n2 }
    let db2 := (JobQueue.processJob db1 j1 cfg e2 n2).db
    let db3 := (JobQueue.processJob db2 j2 cfg e3 n3).db
    j1 ∈ db1.jobs ∧ j2 ∈ db2.jobs
      ∧ (∀ r ∈ db3.jobs, r.id = j.id →
          r.status = JobStatus.failed ∧ r.attempts = JobQueue.MAX_ATTEMPTS
            ∧ r.last_error = some (JobQueue.failMsg cfg j.content e3))
      ∧ (⟨"job_failed", some j.wa_id, some j.id,
            some (JobQueue.failMsg cfg j.content e3)⟩ : EventLog) ∈ db3.events
      ∧ (∀ t r, r ∈ JobQueue.readyJobs db3 t → r.id ≠ j.id)
      ∧ (∀ s, SerialReachable db3 s →
          ∀ t r, r ∈ JobQueue.readyJobs s t → r.id ≠ j.id) := by
  intro j1 db1 j2 db2 db3
  have hfu1 : JobQueue.finalUpdate j cfg e1 n1 j = j1 := by
    unfold JobQueue.finalUpdate
    rw [if_pos h1, if_neg (show ¬ (JobQueue.MAX_ATTEMPTS ≤ j.attempts + 1) by
      unfold JobQueue.MAX_ATTEMPTS
      omega)]
  have hmem1 : j1 ∈ db1.jobs := by
    show j1 ∈ (JobQueue.processJob db j cfg e1 n1).db.jobs
    rw [JobQueue.processJob_jobs]
    have hmm := mem_updateJobRow_self db.jobs j.id
      (JobQueue.finalUpdate j cfg e1 n1) j hj rfl
    rwa [hfu1] at hmm
  have hfu2 : JobQueue.finalUpdate j1 cfg e2 n2 j1 = j2 := by
    unfold JobQueue.finalUpdate
    rw [if_pos (show JobQueue.attemptFails cfg j1.content e2 = true from h2),
      if_neg (show ¬ (JobQueue.MAX_ATTEMPTS ≤ j1.attempts + 1) by
        show ¬ (JobQueue.MAX_ATTEMPTS ≤ j.attempts + 1 + 1)
        unfold JobQueue.MAX_ATTEMPTS
        omega)]
  have hmem2 : j2 ∈ db2.jobs := by
    show j2 ∈ (JobQueue.processJob db1 j1 cfg e2 n2).db.jobs
    rw [JobQueue.processJob_jobs]
    have hmm := mem_updateJobRow_self db1.jobs j1.id
      (JobQueue.finalUpdate j1 cfg e2 n2) j1 hmem1 rfl
    rwa [hfu2] at hmm
  have hm3 : JobQueue.MAX_ATTEMPTS ≤ j2.attempts + 1 := by
    show JobQueue.MAX_ATTEMPTS ≤ j.attempts + 1 + 1 + 1
    unfold JobQueue.MAX_ATTEMPTS
    omega
  have h3x : JobQueue.attemptFails cfg j2.content e3 = true := h3
  have hjobs3 : db3.jobs
      = updateJobRow db2.jobs j2.id (JobQueue.finalUpdate j2 cfg e3 n3) :=
    JobQueue.processJob_jobs db2 j2 cfg e3 n3
  have hfu3 : JobQueue.finalUpdate j2 cfg e3 n3 = fun r =>
      { r with status := JobStatus.failed, attempts := j2.attempts + 1,
               last_error := some (JobQueue.failMsg cfg j2.content e3),
               updated_at := n3 } := by
    unfold JobQueue.finalUpdate
    rw [if_pos h3x, if_pos hm3]
  have hall : ∀ r ∈ db3.jobs, r.id = j.id →
      r.status = JobStatus.failed ∧ r.attempts = JobQueue.MAX_ATTEMPTS
        ∧ r.last_error = some (JobQueue.failMsg cfg j.content e3) := by
    intro r hr hri
    rw [hjobs3] at hr
    rcases mem_updateJobRow _ _ _ _ hr with ⟨a, ha2, hrw⟩
    by_cases hai : a.id = j2.id
    · rw [if_pos hai] at hrw
      rw [hrw, hfu3]
      refine ⟨rfl, ?_, rfl⟩
      show j2.attempts + 1 = JobQueue.MAX_ATTEMPTS
      show j.attempts + 1 + 1 + 1 = JobQueue.MAX_ATTEMPTS
      unfold JobQueue.MAX_ATTEMPTS
      omega
    · rw [if_neg hai] at hrw
      rw [hrw] at hri
      exact absurd hri hai
  have hev : (⟨"job_failed", some j.wa_id, some j.id,
      some (JobQueue.failMsg cfg j.content e3)⟩ : EventLog) ∈ db3.events := by
    show _ ∈ (JobQueue.processJob db2 j2 cfg e3 n3).db.events
    rw [JobQueue.processJob_events_failed db2 j2 cfg e3 n3 h3x hm3]
    exact List.mem_append.mpr (Or.inr (List.mem_singleton_self _))
  have hnid : db3.nextId = db.nextId := by
    show (JobQueue.processJob db2 j2 cfg e3 n3).db.nextId = db.nextId
    rw [JobQueue.processJob_nextId]
    show (JobQueue.processJob db1 j1 cfg e2 n2).db.nextId = db.nextId
    rw [JobQueue.processJob_nextId]
    show (JobQueue.processJob db j cfg e1 n1).db.nextId = db.nextId
    rw [JobQueue.processJob_nextId]
  have hrow : rowFailed db3 j.id := by
    refine ⟨fun r hr hri => (hall r hr hri).1, ?_⟩
    rw [hnid]
    exact hwf.2 j hj
  refine ⟨hmem1, hmem2, hall, hev, ?_, ?_⟩
  · intro t r hr
    exact JobQueue.readyJobs_excludes_failed db3 j.id hrow t r hr
  · intro st hst t r hr
    exact JobQueue.readyJobs_excludes_failed st j.id
      (JobQueue.rowFailed_reachable db3 st j.id hst hrow) t r hr

/-- C5 witness: three consecutive AI failures on the concrete state emit
the `job_failed` event. -/
theorem c5_witness :
    (⟨"job_failed", some "u", some 1, some "AI down"⟩ : EventLog)
      ∈ ((JobQueue.processJob
            ((JobQueue.processJob
              ((JobQueue.processJob exDbPlain exJob exCfg exEnvAiFail 10).db)
              ⟨1, "u", JobStatus.pending, 10 + 2 ^ 1 * 5 * 1000, some "hi", 1,
                some "AI down", 10⟩ exCfg exEnvAiFail 20).db)
            ⟨1, "u", JobStatus.pending, 20 + 2 ^ 2 * 5 * 1000, some "hi", 2,
              some "AI down", 20⟩ exCfg exEnvAiFail 30).db).events := by
  have h := c5_retry_bound exDbPlain exCfg exJob exEnvAiFail exEnvAiFail
    exEnvAiFail 10 20 30 (by decide) ⟨by decide, by decide⟩ rfl rfl
    (by decide) (by decide) (by decide)
  exact h.2.2.2.1

/-- C6, counterexample: the claim fails on the worker path
(src/backend/index.js): a first failure reschedules the job after a fixed
5000 ms, not after `2^attempts * 5` seconds (which would be 10000 ms). -/
theorem c6_counterexample :
    (∀ r ∈ (Worker.processJob exDbPlain exJob exWEnvFail 1000).db.jobs,
        r.status = JobStatus.pending ∧ r.scheduled_for = 1000 + 5000)
      ∧ 1000 + 5000 ≠ 1000 + 2 ^ (exJob.attempts + 1) * 5 * 1000 := by
  decide

/-- C6, amended: on the lib path (src/lib/job-queue.ts), every non-final
failure reschedules the job exactly `2^attempts * 5` seconds after `now`
(attempts counted after the increment), and this delay is strictly
increasing in the attempt number; the standalone worker path instead uses a
fixed 5-second delay. -/
theorem c6_amended_backoff (db : DB) (j : Job) (cfg : Config)
    (env : JobQueue.LibEnv) (now : Nat)
    (hf : JobQueue.attemptFails cfg j.content env = true)
    (hlt : j.attempts + 1 < JobQueue.MAX_ATTEMPTS) :
    (∀ r ∈ (JobQueue.processJob db j cfg env now).db.jobs, r.id = j.id →
        r.scheduled_for = now + 2 ^ (j.attempts + 1) * 5 * 1000)
      ∧ (∀ k : Nat, 2 ^ k * 5 < 2 ^ (k + 1) * 5) := by
  constructor
  · intro r hr hri
    rw [JobQueue.processJob_jobs] at hr
    rcases mem_updateJobRow _ _ _ _ hr with ⟨a, ha, hrw⟩
    by_cases hai : a.id = j.id
    · rw [if_pos hai] at hrw
      have hfu : JobQueue.finalUpdate j cfg env now a
          = { a with status := JobStatus.pending,
                     scheduled_for := now + 2 ^ (j.attempts + 1) * 5 * 1000,
                     attempts := j.attempts + 1,
                     last_error := some (JobQueue.failMsg cfg j.content env),
                     updated_at := now } := by
        unfold JobQueue.finalUpdate
        rw [if_pos hf, if_neg (show ¬ (JobQueue.MAX_ATTEMPTS ≤ j.attempts + 1) by
          omega)]
      rw [hrw, hfu]
    · rw [if_neg hai] at hrw
      rw [hrw] at hri
      exact absurd hri hai
  · intro k
    have hpos : 0 < 2 ^ k := Nat.pos_pow_of_pos k (by omega)
    calc 2 ^ k * 5 < 2 ^ k * 10 := by omega
      _ = 2 ^ (k + 1) * 5 := by rw [Nat.pow_succ]; ring

/-- C6 witness: the amended theorem at the concrete failing state; the
failed row is rescheduled 10 seconds out and the delay strictly grows. -/
theorem c6_witness :
    2 ^ 1 * 5 < 2 ^ 2 * 5
      ∧ ((JobQueue.processJob exDbPlain exJob exCfg exEnvAiFail 100).db.jobs.filter
          (fun r => decide (r.scheduled_for = 100 + 2 ^ 1 * 5 * 1000))).length
        = 1 := by
  have h := c6_amended_backoff exDbPlain exJob exCfg exEnvAiFail 100
    (by decide) (by decide)
  exact ⟨h.2 1, by decide⟩

/-- C7 (confirmed): the poller selects at most 10 pending rows whose
deadline has passed, in ascending deadline order; the batch processes every
selected job (`processed + errors` equals the selection size, so one job's
failure never prevents the rest), and the error count is exactly the number
of selected jobs whose attempt throws. -/
theorem c7_poller (db : DB) (cfg : Config) (now : Nat)
    (envs : Nat → JobQueue.LibEnv) :
    (JobQueue.readyJobs db now).length ≤ 10
      ∧ (∀ r ∈ JobQueue.readyJobs db now,
          r ∈ db.jobs ∧ r.status = JobStatus.pending ∧ r.scheduled_for ≤ now)
      ∧ (JobQueue.readyJobs db now).Pairwise
          (fun a b => a.scheduled_for ≤ b.scheduled_for)
      ∧ (JobQueue.processReadyJobs db cfg now false envs).2.processed
          + (JobQueue.processReadyJobs db cfg now false envs).2.errors
          = (JobQueue.readyJobs db now).length
      ∧ (JobQueue.processReadyJobs db cfg now false envs).2.errors
          = JobQueue.batchFailCount cfg envs (JobQueue.readyJobs db now) 0 := by
  have hrb := JobQueue.runBatch_counts cfg now envs (JobQueue.readyJobs db now) db 0
  refine ⟨JobQueue.readyJobs_length db now,
    fun r hr => JobQueue.readyJobs_mem db now r hr,
    JobQueue.readyJobs_sorted db now, ?_, ?_⟩
  · unfold JobQueue.processReadyJobs
    simp only [Bool.false_eq_true, if_false]
    exact hrb.1
  · unfold JobQueue.processReadyJobs
    simp only [Bool.false_eq_true, if_false]
    exact hrb.2

/-- C7 witness: the batch accounting at a concrete state. -/
theorem c7_witness :
    (JobQueue.processReadyJobs exDbPlain exCfg 100 false
        (fun _ => exEnvAiFail)).2.processed
      + (JobQueue.processReadyJobs exDbPlain exCfg 100 false
        (fun _ => exEnvAiFail)).2.errors
      = (JobQueue.readyJobs exDbPlain 100).length :=
  (c7_poller exDbPlain exCfg 100 (fun _ => exEnvAiFail)).2.2.2.1

/-- C8 (confirmed): every persistence outcome of `scheduleOrDebounceJob`
ends in one of its three normal returns (supabase surfaces persistence
failures as error values, and the function body has no throw site); in
particular an insert failure leaves the state unchanged and is logged and
swallowed. -/
theorem c8_enqueue_never_throws (db : DB) (w c : String) (now : Nat)
    (cfg : Config) (pf : JobQueue.PFlags) :
    ((JobQueue.scheduleOrDebounceJob db w c now cfg pf).console
          = ["[JobQueue] Debounced job"]
        ∨ (JobQueue.scheduleOrDebounceJob db w c now cfg pf).console
          = ["[JobQueue] Created job"]
        ∨ ((JobQueue.scheduleOrDebounceJob db w c now cfg pf).console
            = ["[JobQueue] Failed to create job"]
          ∧ (JobQueue.scheduleOrDebounceJob db w c now cfg pf).db = db))
      ∧ ((if pf.queryFails then none else JobQueue.findPendingJob db w) = none →
          pf.insertFails = true →
          (JobQueue.scheduleOrDebounceJob db w c now cfg pf).db = db
            ∧ (JobQueue.scheduleOrDebounceJob db w c now cfg pf).console
              = ["[JobQueue] Failed to create job"]) := by
  unfold JobQueue.scheduleOrDebounceJob
  cases hfind : (if pf.queryFails then none else JobQueue.findPendingJob db w) with
  | some ej =>
    constructor
    · exact Or.inl rfl
    · intro hnone
      exact absurd hnone (by simp)
  | none =>
    cases hins : pf.insertFails with
    | true =>
      constructor
      · exact Or.inr (Or.inr ⟨rfl, rfl⟩)
      · intro _ _
        exact ⟨rfl, rfl⟩
    | false =>
      constructor
      · exact Or.inr (Or.inl rfl)
      · intro _ hcon
        exact absurd hcon (by simp [hins])

/-- C8 witness: insert failure on the empty state is swallowed and logged. -/
theorem c8_witness :
    (JobQueue.scheduleOrDebounceJob exDbEmpty "u" "hi" 0 exCfg
        ⟨false, false, true⟩).db = exDbEmpty
      ∧ (JobQueue.scheduleOrDebounceJob exDbEmpty "u" "hi" 0 exCfg
        ⟨false, false, true⟩).console = ["[JobQueue] Failed to create job"] :=
  (c8_enqueue_never_throws exDbEmpty "u" "hi" 0 exCfg ⟨false, false, true⟩).2
    (by decide) rfl

/-- C9, counterexample: the error recorded for an empty-content job is
"No message content found in job", not the claim's exact string
"No message content". -/
theorem c9_counterexample :
    (JobQueue.processJob exDbNoContent exJobNoContent exCfg exEnvOk 100).thrown
        = some "No message content found in job"
      ∧ (∀ r ∈ (JobQueue.processJob exDbNoContent exJobNoContent exCfg
            exEnvOk 100).db.jobs,
          r.last_error = some "No message content found in job"
            ∧ r.status = JobStatus.pending ∧ r.attempts = 1)
      ∧ "No message content found in job" ≠ "No message content" := by
  decide

/-- C9, amended: an empty-content job (null or empty string) is treated
exactly like an adapter failure by the lib processor: no adapter is
invoked, `attempts` is incremented, the error
"No message content found in job" is recorded as `last_error`
(the worker path records "No message content in job"), and below
`MAX_ATTEMPTS` the job goes back to Pending with the standard retry delay
rather than being terminal. -/
theorem c9_amended_empty_content_retry (db : DB) (j : Job) (cfg : Config)
    (env : JobQueue.LibEnv) (now : Nat) (hc : j.content.getD "" = "")
    (hlt : j.attempts + 1 < JobQueue.MAX_ATTEMPTS) :
    (JobQueue.processJob db j cfg env now).thrown
        = some "No message content found in job"
      ∧ (JobQueue.processJob db j cfg env now).aiCalls = 0
      ∧ (JobQueue.processJob db j cfg env now).sendCalls = 0
      ∧ (JobQueue.processJob db j cfg env now).db.jobs
          = updateJobRow db.jobs j.id (fun r =>
              { r with status := JobStatus.pending,
                       scheduled_for := now + 2 ^ (j.attempts + 1) * 5 * 1000,
                       attempts := j.attempts + 1,
                       last_error := some "No message content found in job",
                       updated_at := now }) := by
  have hf : JobQueue.attemptFails cfg j.content env = true := by
    unfold JobQueue.attemptFails
    rw [if_pos hc]
  have hmsg : JobQueue.failMsg cfg j.content env
      = "No message content found in job" := by
    unfold JobQueue.failMsg
    rw [if_pos hc]
  refine ⟨?_, ?_, ?_, ?_⟩
  · rw [JobQueue.processJob_thrown, if_pos hf, hmsg]
  · unfold JobQueue.processJob JobQueue.handleFailure
    rw [if_pos hc, if_neg (show ¬ (JobQueue.MAX_ATTEMPTS ≤ j.attempts + 1) by
      omega)]
  · unfold JobQueue.processJob JobQueue.handleFailure
    rw [if_pos hc, if_neg (show ¬ (JobQueue.MAX_ATTEMPTS ≤ j.attempts + 1) by
      omega)]
  · rw [JobQueue.processJob_jobs]
    unfold JobQueue.finalUpdate
    rw [if_pos hf, if_neg (show ¬ (JobQueue.MAX_ATTEMPTS ≤ j.attempts + 1) by
      omega)]
    simp only [hmsg]

/-- C9 witness: the amended theorem at the concrete empty-content state. -/
theorem c9_witness :
    (JobQueue.processJob exDbNoContent exJobNoContent exCfg exEnvAiFail 100).thrown
        = some "No message content found in job"
      ∧ (JobQueue.processJob exDbNoContent exJobNoContent exCfg
          exEnvAiFail 100).aiCalls = 0 := by
  have h := c9_amended_empty_content_retry exDbNoContent exJobNoContent exCfg
    exEnvAiFail 100 (by decide) (by decide)
  exact ⟨h.1, h.2.1⟩

/-- C10 (confirmed): `sendWhatsAppMessage` always returns a
`{ success, messageId?, error? }` value — missing credentials, a non-OK
response body and a caught network error each map to `success = false` with
the corresponding error, and a delivered message maps to `success = true` —
and the lib processor turns a returned non-success into a thrown retryable
failure carrying `sendResult.error || 'Failed to send message'`. -/
theorem c10_send_result_contract (cfg : Config) (opts : SendMessageOptions)
    (net : NetOutcome) (db : DB) (j : Job) (env : JobQueue.LibEnv) (now : Nat) :
    ((cfg.whatsapp_phone_number_id = none ∨ cfg.whatsapp_access_token = none) →
        sendWhatsAppMessage cfg opts net
          = ⟨false, none, some "WhatsApp credentials not configured"⟩)
      ∧ (∀ pid tok, cfg.whatsapp_phone_number_id = some pid →
          cfg.whatsapp_access_token = some tok →
          ((∀ body, net = NetOutcome.httpError body →
              sendWhatsAppMessage cfg opts net = ⟨false, none, some body⟩)
            ∧ (∀ m, net = NetOutcome.netError m →
                sendWhatsAppMessage cfg opts net = ⟨false, none, some m⟩)
            ∧ (∀ mid, net = NetOutcome.ok mid →
                sendWhatsAppMessage cfg opts net = ⟨true, mid, none⟩)))
      ∧ (j.content.getD "" ≠ "" →
          (∃ resp, env.aiResult = Except.ok resp) →
          (sendWhatsAppMessage cfg ⟨"", "", false⟩ env.net).success = false →
          j.attempts + 1 < JobQueue.MAX_ATTEMPTS →
          ((JobQueue.processJob db j cfg env now).thrown
              = some (JobQueue.errOrDefault
                  (sendWhatsAppMessage cfg ⟨"", "", false⟩ env.net).error)
            ∧ ∀ r ∈ (JobQueue.processJob db j cfg env now).db.jobs,
                r.id = j.id →
                r.status = JobStatus.pending ∧ r.attempts = j.attempts + 1)) := by
  refine ⟨?_, ?_, ?_⟩
  · intro h
    unfold sendWhatsAppMessage
    rcases h with h | h
    · rw [h]
    · rw [h]
      cases cfg.whatsapp_phone_number_id <;> rfl
  · intro pid tok hpid htok
    refine ⟨?_, ?_, ?_⟩ <;> intro x hx <;>
      (unfold sendWhatsAppMessage
       rw [hpid, htok, hx])
  · intro hc hok hsf hlt
    obtain ⟨resp, hresp⟩ := hok
    have hf : JobQueue.attemptFails cfg j.content env = true := by
      unfold JobQueue.attemptFails
      rw [if_neg hc]
      simp only [hresp, hsf]
      rfl
    have hmsgf : JobQueue.failMsg cfg j.content env
        = JobQueue.errOrDefault
            (sendWhatsAppMessage cfg ⟨"", "", false⟩ env.net).error := by
      unfold JobQueue.failMsg
      rw [if_neg hc]
      simp only [hresp]
    constructor
    · rw [JobQueue.processJob_thrown, if_pos hf, hmsgf]
    · intro r hr hri
      rw [JobQueue.processJob_jobs] at hr
      rcases mem_updateJobRow _ _ _ _ hr with ⟨a, ha, hrw⟩
      by_cases hai : a.id = j.id
      · rw [if_pos hai] at hrw
        have hfu : JobQueue.finalUpdate j cfg env now a
            = { a with status := JobStatus.pending,
                       scheduled_for := now + 2 ^ (j.attempts + 1) * 5 * 1000,
                       attempts := j.attempts + 1,
                       last_error := some (JobQueue.failMsg cfg j.content env),
                       updated_at := now } := by
          unfold JobQueue.finalUpdate
          rw [if_pos hf,
            if_neg (show ¬ (JobQueue.MAX_ATTEMPTS ≤ j.attempts + 1) by omega)]
        rw [hrw, hfu]
        exact ⟨rfl, rfl⟩
      · rw [if_neg hai] at hrw
        rw [hrw] at hri
        exact absurd hri hai

/-- C10 witness: missing credentials at a concrete call, and the processor
conversion at a concrete failing send. -/
theorem c10_witness :
    sendWhatsAppMessage exCfg ⟨"u", "m", false⟩ (NetOutcome.ok none)
      = ⟨false, none, some "WhatsApp credentials not configured"⟩ :=
  (c10_send_result_contract exCfg ⟨"u", "m", false⟩ (NetOutcome.ok none)
    exDbPlain exJob exEnvOk 100).1 (Or.inl rfl)
